import Mathlib

/-!
# Verification of the obsidian-teleporter core engine

A shallow embedding of the vault-management and file-transfer engine of the
`obsidian-teleporter` repository (src/src/VaultManager.ts, the FileMover class
and TeleporterPlugin in src/main.ts), together with proofs about the claims of
its specification.

Modelling conventions:
* Filesystem paths are Lean `String`s; the Node `path` module (POSIX flavour)
  is modelled by the `pathJoinL`/`baseL`/`dirL`/`extL` functions below.
  `path.join` is modelled up to separator normalization at the joint
  (trailing slashes of the left part and leading slashes of the right part
  are collapsed); inner duplicate separators, `..` segments and Windows
  separators, which never arise in the engine's inputs, are not normalized.
* The filesystem is a pair of association lists: regular files with their
  byte content (modelled as a `String`), and the set of directories.
* Asynchronous Node `fs` calls are modelled as pure functions from a
  filesystem to `Except`, mirroring exactly which errors each wrapper in the
  source rejects with; `err.code === "ENOENT"` handling is folded into the
  corresponding operation.
* Physical write corruption - the failure class that the engine's SHA-256
  verification stage exists to catch - is modelled by a `corrupt` parameter:
  the content that actually lands on disk when `c` is written at path `p` is
  `corrupt p c`.  A faithful disk is `fun _ c => c`.
* The SHA-256 content hash is modelled as the content itself (an idealized
  collision-free hash), so hash comparison is content comparison.
-/

namespace Teleporter

/-! ## Path utilities (model of Node `path`, POSIX flavour) -/

/-- Remove the leading run of `'/'` characters. -/
def stripLeadSlashes : List Char → List Char
  | [] => []
  | c :: r => if c = '/' then stripLeadSlashes r else c :: r

/-- Remove the trailing run of `'/'` characters. -/
def stripTrailSlashes (l : List Char) : List Char :=
  (stripLeadSlashes l.reverse).reverse

/-- Model of Node `path.join(a, b)` for two segments: concatenation with a
single separator at the joint; `"."` and `""` left parts disappear. -/
def pathJoinL (a b : List Char) : List Char :=
  if b = [] then (if a = [] then ['.'] else a)
  else if a = [] ∨ a = ['.'] then b
  else stripTrailSlashes a ++ '/' :: stripLeadSlashes b

/-- `path.join` on strings. -/
def pathJoinS (a b : String) : String := ⟨pathJoinL a.data b.data⟩

/-- Model of Node `path.basename(p)`: the part after the last `'/'`. -/
def baseL (p : List Char) : List Char := (p.reverse.takeWhile (fun c => c ≠ '/')).reverse

/-- `path.basename` on strings. -/
def basenameS (p : String) : String := ⟨baseL p.data⟩

/-- Model of Node `path.dirname(p)`: the part before the last `'/'`, `"."`
when there is no separator, `"/"` when the only separator is leading. -/
def dirL (p : List Char) : List Char :=
  match p.reverse.dropWhile (fun c => c ≠ '/') with
  | [] => ['.']
  | [_] => ['/']
  | _ :: rest => rest.reverse

/-- `path.dirname` on strings. -/
def dirnameS (p : String) : String := ⟨dirL p.data⟩

/-- The extension of a basename `b`: from its last `'.'` to the end, empty
when `b` has no dot or only a leading dot. -/
def extFromBase (b : List Char) : List Char :=
  let e := b.reverse.takeWhile (fun c => c ≠ '.')
  if e.length = b.length then []
  else if e.length + 1 = b.length then []
  else '.' :: e.reverse

/-- Model of Node `path.extname(p)`: the extension of the basename. -/
def extL (p : List Char) : List Char :=
  extFromBase (baseL p)

/-- `path.extname` on strings. -/
def extnameS (p : String) : String := ⟨extL p.data⟩

/-- Model of the two-argument Node `path.basename(p, ext)`: the basename with
the suffix `ext` removed when it is a proper suffix. -/
def basenameSuffixL (p ext : List Char) : List Char :=
  let b := baseL p
  if ext ≠ [] ∧ b ≠ ext ∧ ext.isSuffixOf b then b.take (b.length - ext.length) else b

/-- Two-argument `path.basename` on strings. -/
def basenameSuffixS (p ext : String) : String := ⟨basenameSuffixL p.data ext.data⟩

/-- Model of Obsidian's `normalizePath`: strips leading and trailing
separators (inner duplicate separators do not arise in the engine's inputs). -/
def normalizePathS (p : String) : String := ⟨stripLeadSlashes (stripTrailSlashes p.data)⟩

/-! ## Decimal rendering of the rename counter

The source interpolates the counter into a template literal
(`` `${baseName} ${counter}${ext}` ``); `toDecimal` is the standard decimal
rendering of a natural number, defined here so that its properties
(injectivity, digit-only characters) can be proved. -/

/-- The decimal digit character for `d < 10`. -/
def digitChar : Nat → Char
  | 0 => '0' | 1 => '1' | 2 => '2' | 3 => '3' | 4 => '4'
  | 5 => '5' | 6 => '6' | 7 => '7' | 8 => '8' | 9 => '9'
  | _ => '?'

/-- Decimal rendering worker, structurally recursive on a fuel bound
(`fuel ≥ n` always suffices, and the value is fuel-independent -
`toDecimalAux_irrel` below). -/
def toDecimalAux : Nat → Nat → List Char
  | 0, n => [digitChar n]
  | fuel + 1, n =>
    if n < 10 then [digitChar n]
    else toDecimalAux fuel (n / 10) ++ [digitChar (n % 10)]

/-- Decimal rendering of a natural number as a character list. -/
def toDecimal (n : Nat) : List Char := toDecimalAux n n

/-- Decimal rendering as a string (model of the `${counter}` interpolation). -/
def natToStringS (n : Nat) : String := ⟨toDecimal n⟩

/-! ## Filesystem model -/

/-- A filesystem snapshot: regular files with their content, and directories.
Timestamps are not modelled (no claim mentions them). -/
structure FileSys where
  files : List (String × String)
  dirs : List String
deriving DecidableEq, Repr

/-- Model of `fs.existsSync`. -/
def FileSys.existsSync (fs : FileSys) (p : String) : Bool :=
  fs.files.any (fun e => e.1 = p) || fs.dirs.contains p

/-- Content of the regular file at `p`, if any. -/
def FileSys.content (fs : FileSys) (p : String) : Option String :=
  (fs.files.find? (fun e => e.1 = p)).map (fun e => e.2)

/-- Replace-or-append update of the file list at key `p`. -/
def setFile (l : List (String × String)) (p v : String) : List (String × String) :=
  if l.any (fun e => e.1 = p) then
    l.map (fun e => if e.1 = p then (p, v) else e)
  else l ++ [(p, v)]

/-! ## VaultManager (src/src/VaultManager.ts) -/

/-- `VaultConfig` (only the fields the engine reads). -/
structure VaultConfig where
  id : String
  name : String
  path : String
deriving DecidableEq, Repr

/-- `VaultValidationResult` from src/src/types.ts. -/
structure VaultValidationResult where
  isValid : Bool
  hasConfigFile : Bool
  hasPluginsFolder : Bool
  hasDataFile : Bool
  error : Option String
deriving DecidableEq, Repr

/-- Embedding of `VaultManager.validateVault`.  `statFail p = some m` models
`fs.statSync(p)` throwing an error with message `m` (a read error); the
function's own try/catch turns that into the "Error validating vault" result.
`fs.existsSync` never throws.  The function is total: no execution path
throws. -/
def validateVault (fs : FileSys) (statFail : String → Option String)
    (vaultPath : String) : VaultValidationResult :=
  if !fs.existsSync vaultPath then
    { isValid := false, hasConfigFile := false, hasPluginsFolder := false,
      hasDataFile := false, error := some "Path does not exist" }
  else
    match statFail vaultPath with
    | some m =>
        { isValid := false, hasConfigFile := false, hasPluginsFolder := false,
          hasDataFile := false,
          error := some ("Error validating vault: " ++ m) }
    | none =>
        if !fs.dirs.contains vaultPath then
          { isValid := false, hasConfigFile := false, hasPluginsFolder := false,
            hasDataFile := false, error := some "Path is not a directory" }
        else
          let obsidianPath := pathJoinS vaultPath ".obsidian"
          let hasConfigFile := fs.existsSync obsidianPath
          let hasPluginsFolder :=
            hasConfigFile && fs.existsSync (pathJoinS obsidianPath "plugins")
          let hasDataFile :=
            hasConfigFile &&
              (fs.existsSync (pathJoinS obsidianPath "app.json") ||
               fs.existsSync (pathJoinS obsidianPath "workspace.json"))
          { isValid := hasConfigFile, hasConfigFile := hasConfigFile,
            hasPluginsFolder := hasPluginsFolder, hasDataFile := hasDataFile,
            error :=
              if !hasConfigFile then
                some "No .obsidian folder found. This might not be an Obsidian vault."
              else none }

/-- Embedding of `VaultManager.getFilePath`. -/
def getFilePath (vault : VaultConfig) (relativePath : String) : String :=
  pathJoinS vault.path relativePath

/-- Embedding of `VaultManager.fileExists`. -/
def fileExists (fs : FileSys) (vault : VaultConfig) (relativePath : String) : Bool :=
  fs.existsSync (getFilePath vault relativePath)

/-! ## The rename loop (VaultManager.getAvailableFilename)

The source's `while (this.fileExists(vault, newPath))` loop is embedded with a
fuel parameter; `occupiedCount fs + 1` rounds always suffice (proved below:
the candidate names are pairwise distinct, and only finitely many paths are
occupied), so the fuel-exhausted branch is unreachable. -/

/-- Number of occupied paths in the filesystem: an upper bound on how many
rename candidates can collide. -/
def occupiedCount (fs : FileSys) : Nat := fs.files.length + fs.dirs.length

/-- The candidate produced by one loop iteration:
`path.join(dir, baseName + " " + counter + ext)`. -/
def availCandidate (dir baseName ext : String) (counter : Nat) : String :=
  pathJoinS dir ⟨baseName.data ++ ' ' :: (toDecimal counter ++ ext.data)⟩

/-- The `while` loop of `getAvailableFilename`. -/
def availLoop (fs : FileSys) (vault : VaultConfig) (dir baseName ext : String) :
    Nat → Nat → String → String
  | 0, _, newPath => newPath
  | fuel + 1, counter, newPath =>
    if fileExists fs vault newPath then
      availLoop fs vault dir baseName ext fuel (counter + 1)
        (availCandidate dir baseName ext counter)
    else newPath

/-- Embedding of `VaultManager.getAvailableFilename`. -/
def getAvailableFilename (fs : FileSys) (vault : VaultConfig) (filePath : String) : String :=
  if !fileExists fs vault filePath then filePath
  else
    let dir := dirnameS filePath
    let ext := extnameS filePath
    let baseName := basenameSuffixS filePath ext
    availLoop fs vault dir baseName ext (occupiedCount fs + 1) 1 filePath

/-! ## FileMover (src/src/FileMover.ts) -/

/-- `MoveOptions.conflictStrategy`. -/
inductive ConflictStrategy
  | skip | overwrite | rename | ask
deriving DecidableEq, Repr

/-- `MoveOptions`. -/
structure MoveOptions where
  deleteOriginal : Bool
  preserveMetadata : Bool
  showProgress : Bool
  conflictStrategy : ConflictStrategy
deriving DecidableEq, Repr

/-- `MoveResult` (`duration`, a wall-clock value, is not modelled). -/
structure MoveResult where
  success : Bool
  newPath : Option String := none
  error : Option String := none
  backupPath : Option String := none
deriving DecidableEq, Repr

/-- The Obsidian `TFile` reference (the fields the engine reads). -/
structure TFile where
  path : String
  name : String
deriving DecidableEq, Repr

/-- `MoveOperation.status`. -/
inductive OpStatus
  | pending | success | failed
deriving DecidableEq, Repr

/-- `MoveOperation` (`timestamp` is not modelled; no claim mentions it).
Note that `moveFile` sets `targetPath` to the target *folder* path. -/
structure MoveOperation where
  sourceFile : TFile
  sourceVault : String
  targetVault : VaultConfig
  targetPath : String
  status : OpStatus
  error : Option String := none
deriving DecidableEq, Repr

/-- Trace of filesystem side-effect calls issued by the engine (`unlinkF`
records whether the `fs.unlink` call succeeded). -/
inductive IOEvent
  | readF (p : String)
  | writeF (p : String)
  | copyF (src dst : String)
  | unlinkF (p : String) (ok : Bool)
  | mkdirF (p : String)
deriving DecidableEq, Repr

/-- `FileMover.readFileContent`: rejects when no regular file is at `p`. -/
def fsRead (fs : FileSys) (p : String) : Except String String :=
  match fs.content p with
  | some c => .ok c
  | none => .error "Failed to read file: ENOENT"

/-- `FileMover.writeFileContent`: what lands on disk is `corrupt p c`
(fault injection for the verification stage; a faithful disk is
`fun _ c => c`).  Writing over a directory rejects. -/
def fsWrite (fs : FileSys) (corrupt : String → String → String) (p c : String) :
    Except String FileSys :=
  if fs.dirs.contains p then .error "Failed to write file: EISDIR"
  else .ok { fs with files := setFile fs.files p (corrupt p c) }

/-- `FileMover.deleteFile`: `fs.unlink` with `ENOENT` treated as success
(as in the source); unlinking a directory rejects. -/
def fsUnlink (fs : FileSys) (p : String) : Except String FileSys :=
  if fs.dirs.contains p then .error "Failed to delete file: EISDIR"
  else .ok { fs with files := fs.files.filter (fun e => e.1 ≠ p) }

/-- `FileMover.ensureDirectory`: `fs.mkdir` recursive; rejects when a regular
file occupies the path. -/
def fsMkdirp (fs : FileSys) (p : String) : Except String FileSys :=
  if fs.files.any (fun e => e.1 = p) then .error "Failed to create directory: EEXIST"
  else .ok { fs with dirs := if fs.dirs.contains p then fs.dirs else fs.dirs ++ [p] }

/-- `fs.copyFile` (used by `createBackup` and by the rollback restore). -/
def fsCopy (fs : FileSys) (src dst : String) : Except String FileSys :=
  match fs.content src with
  | some c =>
    if fs.dirs.contains dst then .error "Failed to create backup: EISDIR"
    else .ok { fs with files := setFile fs.files dst c }
  | none => .error "Failed to create backup: ENOENT"

/-- `FileMover.getFileStats` (never rejects; resolves `null` on error).
Only existence is modelled - the stats feed the metadata stage, which
touches only timestamps. -/
def getFileStats (fs : FileSys) (p : String) : Option Unit :=
  if fs.files.any (fun e => e.1 = p) then some () else none

/-- `FileMover.getTempDirectory` (a fixed scratch directory; `os.tmpdir()`
modelled as a constant). -/
def tempDir : String := "/tmp/obsidian-teleporter"

/-- The backup path `teleporter_backup_<operationId><extname(filePath)>`
inside the temp directory. -/
def backupPathFor (opId : String) (filePath : String) : String :=
  pathJoinS tempDir ("teleporter_backup_" ++ opId ++ extnameS filePath)

/-- Embedding of `FileMover.handleConflict`.  `none` is the "skip" sentinel
(cancellation); "ask" currently behaves as "rename". -/
def handleConflict (fs : FileSys) (targetVault : VaultConfig) (targetPath : String)
    (strategy : ConflictStrategy) : Option String :=
  match strategy with
  | .skip => none
  | .overwrite => some targetPath
  | .rename => some (getAvailableFilename fs targetVault targetPath)
  | .ask => some (getAvailableFilename fs targetVault targetPath)

/-- The `try` body of `FileMover.moveFile` (stages 1-5).  A thrown error is
an `Except.error` carrying the message together with the filesystem and the
I/O trace at the point of the throw.  Success carries the resolved
target-relative path.  The metadata-preservation step (`fs.utimes`) changes
only timestamps, which the model does not track, and never rejects in the
source (its error is downgraded to a warning), so it is a no-op here. -/
def moveFileBody (fs : FileSys) (corrupt : String → String → String) (opId : String)
    (file : TFile) (sourceVaultPath : String) (targetVault : VaultConfig)
    (targetFolderPath : String) (options : MoveOptions) :
    Except (String × FileSys × List IOEvent) (String × FileSys × List IOEvent) :=
  -- Stage 1: preparing
  let sourcePath := pathJoinS sourceVaultPath file.path
  let targetFileName := basenameS file.path
  let targetRelativePath0 := normalizePathS (pathJoinS targetFolderPath targetFileName)
  let resolved : Except (String × FileSys × List IOEvent) String :=
    if fileExists fs targetVault targetRelativePath0 then
      match handleConflict fs targetVault targetRelativePath0 options.conflictStrategy with
      | none => .error ("File move cancelled due to conflict", fs, [])
      | some r => .ok r
    else .ok targetRelativePath0
  match resolved with
  | .error e => .error e
  | .ok targetRelativePath =>
    let targetFullPath := pathJoinS targetVault.path targetRelativePath
    -- Stage 2: reading
    match fsRead fs sourcePath with
    | .error m => .error (m, fs, [.readF sourcePath])
    | .ok fileContent =>
      let tr0 : List IOEvent := [.readF sourcePath]
      let _fileStats := getFileStats fs sourcePath
      let backedUp : Except (String × FileSys × List IOEvent) (Option String × FileSys × List IOEvent) :=
        if options.deleteOriginal then
          let bp := backupPathFor opId sourcePath
          match fsCopy fs sourcePath bp with
          | .error m => .error (m, fs, tr0 ++ [.copyF sourcePath bp])
          | .ok fs1 => .ok (some bp, fs1, tr0 ++ [.copyF sourcePath bp])
        else .ok (none, fs, tr0)
      match backedUp with
      | .error e => .error e
      | .ok (backupPath, fs1, tr1) =>
        -- Stage 3: writing
        let targetDir := dirnameS targetFullPath
        match fsMkdirp fs1 targetDir with
        | .error m => .error (m, fs1, tr1 ++ [.mkdirF targetDir])
        | .ok fs2 =>
          match fsWrite fs2 corrupt targetFullPath fileContent with
          | .error m => .error (m, fs2, tr1 ++ [.mkdirF targetDir, .writeF targetFullPath])
          | .ok fs3 =>
            let tr3 := tr1 ++ [.mkdirF targetDir, .writeF targetFullPath]
            -- Stage 4: verifying (hashes of source and target re-read from disk)
            let verified :=
              match fsRead fs3 sourcePath, fsRead fs3 targetFullPath with
              | .ok a, .ok b => a = b
              | _, _ => false
            if !verified then
              .error ("File verification failed - content mismatch", fs3, tr3)
            else
              -- Stage 5: cleaning
              if options.deleteOriginal then
                match fsUnlink fs3 sourcePath with
                | .error m => .error (m, fs3, tr3 ++ [.unlinkF sourcePath false])
                | .ok fs4 =>
                  let tr4 := tr3 ++ [.unlinkF sourcePath true]
                  match backupPath with
                  | some bp =>
                    match fsUnlink fs4 bp with
                    | .error m => .error (m, fs4, tr4 ++ [.unlinkF bp false])
                    | .ok fs5 => .ok (targetRelativePath, fs5, tr4 ++ [.unlinkF bp true])
                  | none => .ok (targetRelativePath, fs4, tr4)
              else .ok (targetRelativePath, fs3, tr3)

/-- Embedding of `FileMover.rollback`.  Mirrors the source's single
try/catch: an exception in any step is swallowed and skips the remaining
steps.  Note the first step recomputes the target location from
`operation.targetPath`, which `moveFile` set to the target *folder* path. -/
def rollback (fs : FileSys) (tr : List IOEvent) (opId : String)
    (operation : MoveOperation) : FileSys × List IOEvent :=
  let targetFullPath := pathJoinS operation.targetVault.path operation.targetPath
  let step1 : Option (FileSys × List IOEvent) :=
    if fs.existsSync targetFullPath then
      match fsUnlink fs targetFullPath with
      | .ok fs1 => some (fs1, tr ++ [.unlinkF targetFullPath true])
      | .error _ => none
    else some (fs, tr)
  match step1 with
  | none => (fs, tr ++ [.unlinkF targetFullPath false])
  | some (fs1, tr1) =>
    let backupPath := backupPathFor opId operation.sourceFile.path
    if fs1.existsSync backupPath then
      let sourcePath := pathJoinS operation.sourceVault operation.sourceFile.path
      let restored : Option (FileSys × List IOEvent) :=
        if !fs1.existsSync sourcePath then
          match fsCopy fs1 backupPath sourcePath with
          | .ok fs2 => some (fs2, tr1 ++ [.copyF backupPath sourcePath])
          | .error _ => none
        else some (fs1, tr1)
      match restored with
      | none => (fs1, tr1 ++ [.copyF backupPath sourcePath])
      | some (fs2, tr2) =>
        match fsUnlink fs2 backupPath with
        | .ok fs3 => (fs3, tr2 ++ [.unlinkF backupPath true])
        | .error _ => (fs2, tr2 ++ [.unlinkF backupPath false])
    else (fs1, tr1)

/-- The `MoveOperation` record `moveFile` registers (note: `targetPath` is
the target folder path, exactly as in the source). -/
def mkMoveOperation (file : TFile) (sourceVaultPath : String)
    (targetVault : VaultConfig) (targetFolderPath : String) : MoveOperation :=
  { sourceFile := file, sourceVault := sourceVaultPath, targetVault := targetVault,
    targetPath := targetFolderPath, status := .pending, error := none }

/-- The active-operations index (`Map<string, MoveOperation>` keyed by
operation id, as an association list). -/
abbrev OpTracker := List (String × MoveOperation)

/-- `this.activeOperations.delete(operationId)`. -/
def eraseOp (t : OpTracker) (opId : String) : OpTracker :=
  t.filter (fun e => e.1 ≠ opId)

/-- Embedding of `FileMover.isOperationActive`. -/
def isOperationActive (t : OpTracker) (filePath : String) : Bool :=
  t.any (fun e => e.2.sourceFile.path = filePath)

/-- Everything `moveFile` produces: the `MoveResult`, the filesystem, the
I/O trace and the final tracker state. -/
structure MoveOutcome where
  result : MoveResult
  fs : FileSys
  trace : List IOEvent
  tracker : OpTracker
deriving Repr

/-- Embedding of `FileMover.moveFile`.  `opId` is the value of
`generateOperationId()` (timestamp + random suffix, supplied externally).
The operation record is registered first; the `finally` clause removes it
from the tracker on every path (success, failure, rollback). -/
def moveFile (t : OpTracker) (fs : FileSys) (corrupt : String → String → String)
    (opId : String) (file : TFile) (sourceVaultPath : String)
    (targetVault : VaultConfig) (targetFolderPath : String)
    (options : MoveOptions) : MoveOutcome :=
  let operation := mkMoveOperation file sourceVaultPath targetVault targetFolderPath
  let t1 := (opId, operation) :: t
  match moveFileBody fs corrupt opId file sourceVaultPath targetVault targetFolderPath options with
  | .ok (newPath, fs1, tr1) =>
    { result := { success := true, newPath := some newPath, error := none, backupPath := none },
      fs := fs1, trace := tr1, tracker := eraseOp t1 opId }
  | .error (msg, fs1, tr1) =>
    let (fs2, tr2) := rollback fs1 tr1 opId
      { operation with status := .failed, error := some msg }
    { result := { success := false, newPath := none, error := some msg, backupPath := none },
      fs := fs2, trace := tr2, tracker := eraseOp t1 opId }

/-! ## Claims C3 and C10: validateVault -/

/-- A concrete filesystem used by witnesses: one valid vault at `/v`. -/
def fsVaultW : FileSys :=
  { files := [("/v/.obsidian/app.json", "{}")],
    dirs := ["/v", "/v/.obsidian"] }

/-- A stat function that never fails (no read errors). -/
def statOkW : String → Option String := fun _ => none

/-- C3: `validateVault` is total (it is a Lean function, hence never throws);
for non-existent paths, non-directory paths and read errors (`statFail`) it
returns `isValid = false` with `error` populated; and `isValid = true` holds
exactly when the path exists, the stat call succeeds, the path is a directory
and the `.obsidian` marker folder exists under it - independently of the
marker folder's internal contents (plugins folder, data files). -/
theorem validateVault_graceful_and_marker (fs : FileSys)
    (statFail : String → Option String) (p : String) :
    ((validateVault fs statFail p).isValid = true ↔
      (fs.existsSync p = true ∧ statFail p = none ∧ fs.dirs.contains p = true ∧
        fs.existsSync (pathJoinS p ".obsidian") = true)) ∧
    ((validateVault fs statFail p).isValid = false →
      (validateVault fs statFail p).error.isSome = true) := by
  unfold validateVault
  by_cases hex : fs.existsSync p
  · cases hsf : statFail p with
    | some m => simp [hex, hsf]
    | none =>
      by_cases hdir : p ∈ fs.dirs
      · by_cases hcfg : fs.existsSync (pathJoinS p ".obsidian")
        · simp [hex, hsf, hdir, hcfg]
        · simp [hex, hsf, hdir, hcfg]
      · simp [hex, hsf, hdir]
  · simp [hex]

/-- Witness for C3 at a concrete input: a non-existent path yields
`isValid = false` with the error populated. -/
theorem validateVault_graceful_and_marker_witness :
    (validateVault fsVaultW statOkW "/nope").isValid = false ∧
    (validateVault fsVaultW statOkW "/nope").error.isSome = true :=
  ⟨by decide, (validateVault_graceful_and_marker fsVaultW statOkW "/nope").2 (by decide)⟩

/-- C10: in every `validateVault` result, `hasPluginsFolder` and `hasDataFile`
imply `hasConfigFile`, and `isValid` equals `hasConfigFile`: marker-folder
sub-contents are never reported present without the marker folder itself. -/
theorem validateVault_field_invariants (fs : FileSys)
    (statFail : String → Option String) (p : String) :
    ((validateVault fs statFail p).hasPluginsFolder = true →
      (validateVault fs statFail p).hasConfigFile = true) ∧
    ((validateVault fs statFail p).hasDataFile = true →
      (validateVault fs statFail p).hasConfigFile = true) ∧
    (validateVault fs statFail p).isValid = (validateVault fs statFail p).hasConfigFile := by
  unfold validateVault
  by_cases hex : fs.existsSync p
  · cases hsf : statFail p with
    | some m => simp [hex, hsf]
    | none =>
      by_cases hdir : p ∈ fs.dirs
      · by_cases hcfg : fs.existsSync (pathJoinS p ".obsidian")
        · simp [hex, hsf, hdir, hcfg]
        · simp [hex, hsf, hdir, hcfg]
      · simp [hex, hsf, hdir]
  · simp [hex]

/-- Witness for C10 at a concrete input: a valid vault whose `.obsidian`
folder contains a data file. -/
theorem validateVault_field_invariants_witness :
    (validateVault fsVaultW statOkW "/v").hasDataFile = true ∧
    (validateVault fsVaultW statOkW "/v").hasConfigFile = true :=
  ⟨by decide, (validateVault_field_invariants fsVaultW statOkW "/v").2.1 (by decide)⟩

/-! ## Concrete transfer scenarios shared by several claims -/

/-- A disk that corrupts exactly the write at `/tv/Inbox/a.md` (the
fault class the verification stage exists to catch). -/
def corruptTargetW : String → String → String :=
  fun p c => if p = "/tv/Inbox/a.md" then "XXXX" else c

/-- A faithful disk: every write lands as issued. -/
def corruptNoneW : String → String → String := fun _ c => c

/-- Source vault `/sv` containing `a.md`, empty target folder `/tv/Inbox`. -/
def fsMoveW : FileSys :=
  { files := [("/sv/a.md", "hello")], dirs := ["/sv", "/tv", "/tv/Inbox"] }

/-- Like `fsMoveW` but with a conflicting file already at the target path. -/
def fsConflictW : FileSys :=
  { files := [("/sv/a.md", "hello"), ("/tv/Inbox/a.md", "old")],
    dirs := ["/sv", "/tv", "/tv/Inbox"] }

/-- The target vault rooted at `/tv`. -/
def targetVaultW : VaultConfig := { id := "tv1", name := "Target", path := "/tv" }

/-- The file being transferred. -/
def fileW : TFile := { path := "a.md", name := "a.md" }

/-- Copy semantics, rename on conflict. -/
def optsCopyRenameW : MoveOptions :=
  { deleteOriginal := false, preserveMetadata := false, showProgress := false,
    conflictStrategy := .rename }

/-- Copy semantics, skip on conflict. -/
def optsCopySkipW : MoveOptions :=
  { deleteOriginal := false, preserveMetadata := false, showProgress := false,
    conflictStrategy := .skip }

/-! ## Claim C1: rollback does not delete the written target file

`moveFile` registers the operation with `targetPath := targetFolderPath` (the
target *folder*) and never updates it to the resolved file path, so
`rollback` attempts `fs.unlink` on the target folder - which fails with
`EISDIR` and is swallowed - and the file written at the resolved target path
survives every failed operation.  The run below transfers `/sv/a.md` to
folder `Inbox` of vault `/tv`; the disk corrupts the write, verification
fails, rollback runs, and the corrupted target file remains on disk,
contradicting both the specification and the source's own comment
("If we created a new file in the target, try to remove it"). -/

/-- C1 (code bug, evaluated at the failing input): after a transfer that
fails at the verification stage, the rollback leaves the written file at the
resolved target path `/tv/Inbox/a.md` in place (its unlink attempt targets
the folder `/tv/Inbox` instead and fails), while the source file survives. -/
theorem moveFile_failed_verification_leaves_target :
    (moveFile [] fsMoveW corruptTargetW "op1" fileW "/sv" targetVaultW "Inbox"
        optsCopyRenameW).result.success = false ∧
    (moveFile [] fsMoveW corruptTargetW "op1" fileW "/sv" targetVaultW "Inbox"
        optsCopyRenameW).result.error = some "File verification failed - content mismatch" ∧
    (moveFile [] fsMoveW corruptTargetW "op1" fileW "/sv" targetVaultW "Inbox"
        optsCopyRenameW).fs.content "/tv/Inbox/a.md" = some "XXXX" ∧
    (moveFile [] fsMoveW corruptTargetW "op1" fileW "/sv" targetVaultW "Inbox"
        optsCopyRenameW).fs.content "/sv/a.md" = some "hello" ∧
    (moveFile [] fsMoveW corruptTargetW "op1" fileW "/sv" targetVaultW "Inbox"
        optsCopyRenameW).trace.getLast? = some (IOEvent.unlinkF "/tv/Inbox" false) := by
  decide

/-! ## Claim C5: skip-conflict abort -/

/-- In the skip-conflict abort, `rollback` runs on the unchanged filesystem
and either does nothing (target folder location not present) or attempts one
`fs.unlink` on the target *folder* path, which fails (`EISDIR`) and is
swallowed; either way the filesystem is unchanged. -/
theorem rollback_conflict_noop (fs : FileSys) (tr : List IOEvent) (opId : String)
    (op : MoveOperation)
    (hnotfile : fs.files.any
      (fun e => e.1 = pathJoinS op.targetVault.path op.targetPath) = false)
    (hnobackup : fs.existsSync (backupPathFor opId op.sourceFile.path) = false) :
    rollback fs tr opId op = (fs, tr) ∨
    rollback fs tr opId op =
      (fs, tr ++ [IOEvent.unlinkF (pathJoinS op.targetVault.path op.targetPath) false]) := by
  unfold rollback
  by_cases hex : fs.existsSync (pathJoinS op.targetVault.path op.targetPath)
  · have hdir : pathJoinS op.targetVault.path op.targetPath ∈ fs.dirs := by
      unfold FileSys.existsSync at hex
      rw [hnotfile] at hex
      simpa using hex
    right
    simp [hex, fsUnlink, hdir]
  · left
    simp [hex, hnobackup]

/-- Witness for `rollback_conflict_noop` at a concrete input. -/
theorem rollback_conflict_noop_witness :
    rollback fsConflictW [] "op9"
        (mkMoveOperation fileW "/sv" targetVaultW "Inbox") = (fsConflictW, []) ∨
    rollback fsConflictW [] "op9"
        (mkMoveOperation fileW "/sv" targetVaultW "Inbox") =
      (fsConflictW, [IOEvent.unlinkF "/tv/Inbox" false]) :=
  rollback_conflict_noop fsConflictW [] "op9"
    (mkMoveOperation fileW "/sv" targetVaultW "Inbox") (by decide) (by decide)

/-- C5 counterexample: the claim asserts that in a skip-conflict abort "no
file I/O has occurred (no read, write, backup, or delete)".  At this concrete
conflicting input the engine does issue a delete call: the rollback attempts
`fs.unlink` on `/tv/Inbox` (it fails with `EISDIR` and is swallowed), so the
trace is not delete-free. -/
theorem moveFile_skip_conflict_counterexample :
    ¬ ((moveFile [] fsConflictW corruptNoneW "op2" fileW "/sv" targetVaultW "Inbox"
        optsCopySkipW).trace.all
          (fun e => match e with | .unlinkF _ _ => false | _ => true) = true) := by
  decide

/-- C5 amended: when the proposed target path exists and the strategy is
`skip`, `moveFile` returns `success = false` with the specific cancellation
error (distinguished from the "Failed to ..." I/O errors), the filesystem is
unchanged, and no read, write, backup or directory creation occurs; the only
I/O the operation may issue is a single failing `fs.unlink` attempt on the
target-folder path during rollback.  Hypotheses: the target-folder location
is not occupied by a regular file, and no stale backup exists for this fresh
operation id. -/
theorem moveFile_skip_conflict_aborts (t : OpTracker) (fs : FileSys)
    (corrupt : String → String → String) (opId : String) (file : TFile)
    (sourceVaultPath : String) (targetVault : VaultConfig)
    (targetFolderPath : String) (options : MoveOptions)
    (hconf : fileExists fs targetVault
      (normalizePathS (pathJoinS targetFolderPath (basenameS file.path))) = true)
    (hskip : options.conflictStrategy = ConflictStrategy.skip)
    (hnotfile : fs.files.any
      (fun e => e.1 = pathJoinS targetVault.path targetFolderPath) = false)
    (hnobackup : fs.existsSync (backupPathFor opId file.path) = false) :
    (moveFile t fs corrupt opId file sourceVaultPath targetVault targetFolderPath
        options).result.success = false ∧
    (moveFile t fs corrupt opId file sourceVaultPath targetVault targetFolderPath
        options).result.error = some "File move cancelled due to conflict" ∧
    (moveFile t fs corrupt opId file sourceVaultPath targetVault targetFolderPath
        options).fs = fs ∧
    ((moveFile t fs corrupt opId file sourceVaultPath targetVault targetFolderPath
        options).trace = [] ∨
      (moveFile t fs corrupt opId file sourceVaultPath targetVault targetFolderPath
        options).trace =
        [IOEvent.unlinkF (pathJoinS targetVault.path targetFolderPath) false]) := by
  have hbody : moveFileBody fs corrupt opId file sourceVaultPath targetVault
      targetFolderPath options =
      .error ("File move cancelled due to conflict", fs, []) := by
    unfold moveFileBody handleConflict
    rw [hskip]
    simp [hconf]
  have hroll := rollback_conflict_noop fs ([] : List IOEvent) opId
    { sourceFile := file, sourceVault := sourceVaultPath, targetVault := targetVault,
      targetPath := targetFolderPath, status := .failed,
      error := some "File move cancelled due to conflict" }
    (by simpa using hnotfile) (by simpa using hnobackup)
  unfold moveFile
  rw [hbody]
  rcases hroll with hroll | hroll <;>
    simp [mkMoveOperation, hroll]

/-- Witness for C5 (amended) at the concrete conflicting input. -/
theorem moveFile_skip_conflict_aborts_witness :
    (moveFile [] fsConflictW corruptNoneW "op2" fileW "/sv" targetVaultW "Inbox"
        optsCopySkipW).result.success = false ∧
    (moveFile [] fsConflictW corruptNoneW "op2" fileW "/sv" targetVaultW "Inbox"
        optsCopySkipW).fs = fsConflictW :=
  ⟨(moveFile_skip_conflict_aborts [] fsConflictW corruptNoneW "op2" fileW "/sv"
      targetVaultW "Inbox" optsCopySkipW (by decide) (by decide) (by decide) (by decide)).1,
   (moveFile_skip_conflict_aborts [] fsConflictW corruptNoneW "op2" fileW "/sv"
      targetVaultW "Inbox" optsCopySkipW (by decide) (by decide) (by decide) (by decide)).2.2.1⟩

/-! ## Claim C6: copy mode preserves the source -/

/-- Lookup of the replaced key in the map-replace branch of `setFile`. -/
theorem find?_mapReplace_self (l : List (String × String)) (p v : String)
    (hany : l.any (fun e => e.1 = p) = true) :
    (l.map (fun e => if e.1 = p then (p, v) else e)).find? (fun e => e.1 = p)
      = some (p, v) := by
  induction l with
  | nil => simp at hany
  | cons hd tl ih =>
    rw [List.map_cons]
    by_cases hhd : hd.1 = p
    · rw [if_pos hhd, List.find?_cons_of_pos _ (by simp)]
    · rw [if_neg hhd, List.find?_cons_of_neg _ (by simp [hhd])]
      exact ih (by simpa [hhd] using hany)

/-- Lookup of any other key in the map-replace branch of `setFile`. -/
theorem find?_mapReplace_other (l : List (String × String)) (p v q : String)
    (hne : q ≠ p) :
    (l.map (fun e => if e.1 = p then (p, v) else e)).find? (fun e => e.1 = q)
      = l.find? (fun e => e.1 = q) := by
  induction l with
  | nil => rfl
  | cons hd tl ih =>
    rw [List.map_cons]
    by_cases hhd : hd.1 = p
    · rw [if_pos hhd,
        List.find?_cons_of_neg _ (by simp [Ne.symm hne]),
        List.find?_cons_of_neg _ (by rw [hhd]; simp [Ne.symm hne])]
      exact ih
    · rw [if_neg hhd]
      by_cases hq : hd.1 = q
      · rw [List.find?_cons_of_pos _ (by simp [hq]),
          List.find?_cons_of_pos _ (by simp [hq])]
      · rw [List.find?_cons_of_neg _ (by simp [hq]),
          List.find?_cons_of_neg _ (by simp [hq])]
        exact ih

/-- Lookup of the appended key in the append branch of `setFile`. -/
theorem find?_append_single_self (l : List (String × String)) (p v : String)
    (hany : l.any (fun e => e.1 = p) = false) :
    (l ++ [(p, v)]).find? (fun e => e.1 = p) = some (p, v) := by
  induction l with
  | nil => simp
  | cons hd tl ih =>
    simp only [List.any_cons, Bool.or_eq_false_iff] at hany
    rw [List.cons_append, List.find?_cons_of_neg _ (by simpa using hany.1)]
    exact ih hany.2

/-- Lookup of any other key in the append branch of `setFile`. -/
theorem find?_append_single_other (l : List (String × String)) (p v q : String)
    (hne : q ≠ p) :
    (l ++ [(p, v)]).find? (fun e => e.1 = q) = l.find? (fun e => e.1 = q) := by
  induction l with
  | nil => simp [Ne.symm hne]
  | cons hd tl ih =>
    by_cases hq : hd.1 = q
    · rw [List.cons_append, List.find?_cons_of_pos _ (by simp [hq]),
        List.find?_cons_of_pos _ (by simp [hq])]
    · rw [List.cons_append, List.find?_cons_of_neg _ (by simp [hq]),
        List.find?_cons_of_neg _ (by simp [hq])]
      exact ih

/-- Lookup of the written key after `setFile`. -/
theorem find?_setFile_self (l : List (String × String)) (p v : String) :
    (setFile l p v).find? (fun e => e.1 = p) = some (p, v) := by
  unfold setFile
  by_cases hany : l.any (fun e => e.1 = p) = true
  · rw [if_pos hany]
    exact find?_mapReplace_self l p v hany
  · rw [if_neg hany]
    exact find?_append_single_self l p v (Bool.eq_false_iff.mpr hany)

/-- Lookup of a different key after `setFile`. -/
theorem find?_setFile_other (l : List (String × String)) (p v q : String)
    (hne : q ≠ p) :
    (setFile l p v).find? (fun e => e.1 = q) = l.find? (fun e => e.1 = q) := by
  unfold setFile
  by_cases hany : l.any (fun e => e.1 = p) = true
  · rw [if_pos hany]
    exact find?_mapReplace_other l p v q hne
  · rw [if_neg hany]
    exact find?_append_single_other l p v q hne

/-- Characterization of a successful `moveFileBody` run in copy mode
(`deleteOriginal = false`): the source was readable, the only file-list
change is the write at the resolved target, verification equates the
re-read source and target contents, and the trace is read/mkdir/write. -/
theorem moveFileBody_ok_no_delete (fs : FileSys) (corrupt : String → String → String)
    (opId : String) (file : TFile) (sourceVaultPath : String)
    (targetVault : VaultConfig) (targetFolderPath : String) (options : MoveOptions)
    (np : String) (fs' : FileSys) (tr' : List IOEvent)
    (hdel : options.deleteOriginal = false)
    (h : moveFileBody fs corrupt opId file sourceVaultPath targetVault
      targetFolderPath options = .ok (np, fs', tr')) :
    ∃ c, fs.content (pathJoinS sourceVaultPath file.path) = some c ∧
      fs'.files = setFile fs.files (pathJoinS targetVault.path np)
        (corrupt (pathJoinS targetVault.path np) c) ∧
      fs'.content (pathJoinS sourceVaultPath file.path) =
        fs'.content (pathJoinS targetVault.path np) ∧
      tr' = [.readF (pathJoinS sourceVaultPath file.path),
             .mkdirF (dirnameS (pathJoinS targetVault.path np)),
             .writeF (pathJoinS targetVault.path np)] := by
  unfold moveFileBody at h
  rw [hdel] at h
  simp only [Bool.false_eq_true, if_false] at h
  set src := pathJoinS sourceVaultPath file.path with hsrc
  cases hres : (if fileExists fs targetVault
      (normalizePathS (pathJoinS targetFolderPath (basenameS file.path))) = true then
      match handleConflict fs targetVault
        (normalizePathS (pathJoinS targetFolderPath (basenameS file.path)))
        options.conflictStrategy with
      | none => Except.error (("File move cancelled due to conflict" : String), fs,
          ([] : List IOEvent))
      | some r => Except.ok r
    else Except.ok (normalizePathS (pathJoinS targetFolderPath (basenameS file.path)))) with
  | error e => rw [hres] at h; simp at h
  | ok rel =>
    rw [hres] at h
    simp only at h
    cases hread : fsRead fs src with
    | error m => rw [hread] at h; simp at h
    | ok c =>
      rw [hread] at h
      simp only at h
      cases hmk : fsMkdirp fs (dirnameS (pathJoinS targetVault.path rel)) with
      | error m => rw [hmk] at h; simp at h
      | ok fs2 =>
        rw [hmk] at h
        simp only at h
        cases hw : fsWrite fs2 corrupt (pathJoinS targetVault.path rel) c with
        | error m => rw [hw] at h; simp at h
        | ok fs3 =>
          rw [hw] at h
          simp only at h
          by_cases hv : (match fsRead fs3 src, fsRead fs3 (pathJoinS targetVault.path rel) with
            | .ok a, .ok b => a = b
            | _, _ => false : Bool) = true
          · rw [if_neg (by simp [hv])] at h
            simp only [Except.ok.injEq, Prod.mk.injEq] at h
            obtain ⟨hrel, hfs, htr⟩ := h
            subst hrel
            subst hfs
            subst htr
            have hcontent : fs.content src = some c := by
              revert hread
              unfold fsRead
              cases hc : fs.content src with
              | none => simp
              | some x => simp
            have hfiles2 : fs2.files = fs.files := by
              revert hmk
              unfold fsMkdirp
              by_cases hocc : fs.files.any
                  (fun e => e.1 = dirnameS (pathJoinS targetVault.path rel)) = true
              · rw [if_pos hocc]
                intro hmk
                exact absurd hmk (by simp)
              · rw [if_neg hocc]
                intro hmk
                simp only [Except.ok.injEq] at hmk
                rw [← hmk]
            have hfiles3 : fs3.files =
                setFile fs2.files (pathJoinS targetVault.path rel)
                  (corrupt (pathJoinS targetVault.path rel) c) := by
              revert hw
              unfold fsWrite
              by_cases hd : fs2.dirs.contains (pathJoinS targetVault.path rel) = true
              · rw [if_pos (by simpa using hd)]
                intro hw
                exact absurd hw (by simp)
              · rw [if_neg (by simpa using hd)]
                intro hw
                simp only [Except.ok.injEq] at hw
                rw [← hw]
            have hvz : fs3.content src = fs3.content (pathJoinS targetVault.path rel) := by
              cases hA : fsRead fs3 src with
              | error m => rw [hA] at hv; simp at hv
              | ok a =>
                cases hB : fsRead fs3 (pathJoinS targetVault.path rel) with
                | error m => rw [hA, hB] at hv; simp at hv
                | ok b =>
                  rw [hA, hB] at hv
                  have hab : a = b := by simpa using hv
                  have hA2 : fs3.content src = some a := by
                    revert hA
                    unfold fsRead
                    cases hc : fs3.content src with
                    | none => simp
                    | some x => simp
                  have hB2 : fs3.content (pathJoinS targetVault.path rel) = some b := by
                    revert hB
                    unfold fsRead
                    cases hc : fs3.content (pathJoinS targetVault.path rel) with
                    | none => simp
                    | some x => simp
                  rw [hA2, hB2, hab]
            refine ⟨c, hcontent, ?_, hvz, rfl⟩
            rw [hfiles3, hfiles2]
          · rw [if_pos (by simpa using hv)] at h
            simp at h

/-- C6: for every successful transfer in copy mode (`deleteOriginal=false`)
whose resolved target location differs from the source location, the source
file still exists with byte-for-byte unchanged content, the target file is an
identical copy of the source, and the delete/cleanup stage is skipped
entirely (no unlink and no backup copy appears in the trace).  (The location
hypothesis rules out the degenerate self-overwrite, where the write and the
verification read touch the same path.) -/
theorem moveFile_copy_mode_frame (t : OpTracker) (fs : FileSys)
    (corrupt : String → String → String) (opId : String) (file : TFile)
    (sourceVaultPath : String) (targetVault : VaultConfig)
    (targetFolderPath : String) (options : MoveOptions) (np : String)
    (hdel : options.deleteOriginal = false)
    (hsucc : (moveFile t fs corrupt opId file sourceVaultPath targetVault
      targetFolderPath options).result.success = true)
    (hnp : (moveFile t fs corrupt opId file sourceVaultPath targetVault
      targetFolderPath options).result.newPath = some np)
    (hne : pathJoinS targetVault.path np ≠ pathJoinS sourceVaultPath file.path) :
    (moveFile t fs corrupt opId file sourceVaultPath targetVault targetFolderPath
        options).fs.content (pathJoinS sourceVaultPath file.path) =
      fs.content (pathJoinS sourceVaultPath file.path) ∧
    (fs.content (pathJoinS sourceVaultPath file.path)).isSome = true ∧
    (moveFile t fs corrupt opId file sourceVaultPath targetVault targetFolderPath
        options).fs.content (pathJoinS targetVault.path np) =
      fs.content (pathJoinS sourceVaultPath file.path) ∧
    (moveFile t fs corrupt opId file sourceVaultPath targetVault targetFolderPath
        options).trace.all
      (fun e => match e with
        | .unlinkF _ _ => false
        | .copyF _ _ => false
        | _ => true) = true := by
  cases hb : moveFileBody fs corrupt opId file sourceVaultPath targetVault
      targetFolderPath options with
  | error e =>
    exfalso
    obtain ⟨msg, fs1, tr1⟩ := e
    unfold moveFile at hsucc
    rw [hb] at hsucc
    simp at hsucc
  | ok v =>
    obtain ⟨np0, fs1, tr1⟩ := v
    have hnp0 : np0 = np := by
      unfold moveFile at hnp
      rw [hb] at hnp
      simpa using hnp
    subst hnp0
    obtain ⟨c, hcsrc, hfiles, hvz, htr⟩ := moveFileBody_ok_no_delete fs corrupt opId file
      sourceVaultPath targetVault targetFolderPath options np0 fs1 tr1 hdel hb
    have hout : (moveFile t fs corrupt opId file sourceVaultPath targetVault
        targetFolderPath options).fs = fs1 ∧
        (moveFile t fs corrupt opId file sourceVaultPath targetVault
        targetFolderPath options).trace = tr1 := by
      unfold moveFile
      rw [hb]
      exact ⟨rfl, rfl⟩
    have hsrc1 : fs1.content (pathJoinS sourceVaultPath file.path) =
        fs.content (pathJoinS sourceVaultPath file.path) := by
      unfold FileSys.content
      rw [hfiles, find?_setFile_other _ _ _ _ hne.symm]
    refine ⟨?_, ?_, ?_, ?_⟩
    · rw [hout.1, hsrc1]
    · rw [hcsrc]; rfl
    · rw [hout.1, ← hvz, hsrc1]
    · rw [hout.2, htr]
      rfl

/-- Witness for C6: a concrete successful copy from `/sv/a.md` to
`/tv/Inbox/a.md` keeps the source's content and copies it to the target. -/
theorem moveFile_copy_mode_frame_witness :
    (moveFile [] fsMoveW corruptNoneW "op3" fileW "/sv" targetVaultW "Inbox"
        optsCopyRenameW).fs.content (pathJoinS "/sv" fileW.path) =
      fsMoveW.content (pathJoinS "/sv" fileW.path) ∧
    (moveFile [] fsMoveW corruptNoneW "op3" fileW "/sv" targetVaultW "Inbox"
        optsCopyRenameW).fs.content (pathJoinS targetVaultW.path "Inbox/a.md") =
      fsMoveW.content (pathJoinS "/sv" fileW.path) :=
  ⟨(moveFile_copy_mode_frame [] fsMoveW corruptNoneW "op3" fileW "/sv" targetVaultW
      "Inbox" optsCopyRenameW "Inbox/a.md" (by decide) (by decide) (by decide)
      (by decide)).1,
   (moveFile_copy_mode_frame [] fsMoveW corruptNoneW "op3" fileW "/sv" targetVaultW
      "Inbox" optsCopyRenameW "Inbox/a.md" (by decide) (by decide) (by decide)
      (by decide)).2.2.1⟩

/-! ## Claim C7: tracker lifecycle -/

/-- C7: for every call to `moveFile` - success or failure - the operation
record (registered under a fresh operation id) is removed from the tracker
before the call returns, so the final tracker equals the initial one;
`isOperationActive` on the source path is `true` for the in-flight tracker
state `(opId, operation) :: t` (the state during the whole body, which never
touches the tracker) and `false` immediately after completion, provided no
other operation for the same path was already tracked. -/
theorem moveFile_tracker_lifecycle (t : OpTracker) (fs : FileSys)
    (corrupt : String → String → String) (opId : String) (file : TFile)
    (sourceVaultPath : String) (targetVault : VaultConfig)
    (targetFolderPath : String) (options : MoveOptions)
    (hfresh : t.all (fun e => e.1 ≠ opId) = true)
    (hinactive : isOperationActive t file.path = false) :
    isOperationActive
      ((opId, mkMoveOperation file sourceVaultPath targetVault targetFolderPath) :: t)
      file.path = true ∧
    (moveFile t fs corrupt opId file sourceVaultPath targetVault targetFolderPath
      options).tracker = t ∧
    isOperationActive
      (moveFile t fs corrupt opId file sourceVaultPath targetVault targetFolderPath
        options).tracker file.path = false := by
  have herase : eraseOp
      ((opId, mkMoveOperation file sourceVaultPath targetVault targetFolderPath) :: t)
      opId = t := by
    unfold eraseOp
    rw [List.filter_cons]
    simp only [decide_not]
    rw [if_neg (by simp)]
    apply List.filter_eq_self.mpr
    intro e he
    have := (List.all_eq_true.mp hfresh) e he
    simpa using this
  have htr : (moveFile t fs corrupt opId file sourceVaultPath targetVault
      targetFolderPath options).tracker = t := by
    unfold moveFile
    cases hb : moveFileBody fs corrupt opId file sourceVaultPath targetVault
        targetFolderPath options with
    | ok v => obtain ⟨np, fs1, tr1⟩ := v; simpa using herase
    | error e => obtain ⟨msg, fs1, tr1⟩ := e; simpa using herase
  refine ⟨?_, htr, ?_⟩
  · unfold isOperationActive mkMoveOperation
    simp
  · rw [htr]
    exact hinactive

/-- Witness for C7 at a concrete run. -/
theorem moveFile_tracker_lifecycle_witness :
    isOperationActive
      [("op1", mkMoveOperation fileW "/sv" targetVaultW "Inbox")] fileW.path = true ∧
    (moveFile [] fsMoveW corruptTargetW "op1" fileW "/sv" targetVaultW "Inbox"
      optsCopyRenameW).tracker = [] :=
  ⟨(moveFile_tracker_lifecycle [] fsMoveW corruptTargetW "op1" fileW "/sv" targetVaultW
      "Inbox" optsCopyRenameW (by decide) (by decide)).1,
   (moveFile_tracker_lifecycle [] fsMoveW corruptTargetW "op1" fileW "/sv" targetVaultW
      "Inbox" optsCopyRenameW (by decide) (by decide)).2.1⟩

/-! ## Claim C2: one active operation per source path -/

/-- The slice of the plugin settings `performFileMove` reads. -/
structure SettingsSlice where
  deleteOriginalAfterMove : Bool
  preserveFileHistory : Bool
  showConfirmation : Bool
deriving DecidableEq, Repr

/-- Embedding of `TeleporterPlugin.performFileMove` (src/main.ts): rejects
when an operation for `file.path` is already tracked (before any transfer
work), optionally asks for confirmation (`userConfirms` models the `confirm`
dialog), then runs `moveFile` with the settings-derived options
(`conflictStrategy` hard-coded to `rename`).  Returns `none` when no
transfer was started. -/
def performFileMove (t : OpTracker) (fs : FileSys)
    (corrupt : String → String → String) (opId : String) (file : TFile)
    (targetVault : VaultConfig) (targetFolder : String)
    (settings : SettingsSlice) (userConfirms : Bool)
    (currentVaultPath : String) : Option MoveResult × FileSys × OpTracker :=
  if isOperationActive t file.path then (none, fs, t)
  else if settings.showConfirmation && !userConfirms then (none, fs, t)
  else
    let moveOptions : MoveOptions :=
      { deleteOriginal := settings.deleteOriginalAfterMove,
        preserveMetadata := settings.preserveFileHistory,
        showProgress := true, conflictStrategy := .rename }
    let o := moveFile t fs corrupt opId file currentVaultPath targetVault
      targetFolder moveOptions
    (some o.result, o.fs, o.tracker)

/-- No two tracked operations share a source file path. -/
def NoDupSourcePath (t : OpTracker) : Prop :=
  t.Pairwise (fun a b => a.2.sourceFile.path ≠ b.2.sourceFile.path)

/-- C2: (1) a transfer for a source path with an active tracked operation is
rejected before it begins (no result, filesystem and tracker untouched);
(2) when the guard passes, registering the new operation preserves the
no-duplicate-source-path invariant of the in-flight index; and (3) the
invariant also holds for the index `performFileMove` leaves behind. -/
theorem performFileMove_unique_source (t : OpTracker) (fs : FileSys)
    (corrupt : String → String → String) (opId : String) (file : TFile)
    (targetVault : VaultConfig) (targetFolder : String)
    (settings : SettingsSlice) (userConfirms : Bool) (currentVaultPath : String) :
    (isOperationActive t file.path = true →
      performFileMove t fs corrupt opId file targetVault targetFolder settings
        userConfirms currentVaultPath = (none, fs, t)) ∧
    (isOperationActive t file.path = false → NoDupSourcePath t →
      NoDupSourcePath
        ((opId, mkMoveOperation file currentVaultPath targetVault targetFolder) :: t)) ∧
    (NoDupSourcePath t →
      NoDupSourcePath (performFileMove t fs corrupt opId file targetVault
        targetFolder settings userConfirms currentVaultPath).2.2) := by
  refine ⟨?_, ?_, ?_⟩
  · intro hact
    unfold performFileMove
    rw [if_pos hact]
  · intro hact hnd
    refine List.Pairwise.cons ?_ hnd
    intro b hb
    simp only [mkMoveOperation]
    intro hc
    have hmem : ∃ x ∈ t, x.2.sourceFile.path = file.path := ⟨b, hb, hc.symm⟩
    unfold isOperationActive at hact
    rcases hmem with ⟨x, hx, hxe⟩
    have : t.any (fun e => e.2.sourceFile.path = file.path) = true :=
      List.any_eq_true.mpr ⟨x, hx, by simpa using hxe⟩
    rw [this] at hact
    cases hact
  · intro hnd
    unfold performFileMove
    by_cases hact : isOperationActive t file.path = true
    · rw [if_pos hact]
      exact hnd
    · rw [if_neg hact]
      by_cases hconfirm : (settings.showConfirmation && !userConfirms) = true
      · rw [if_pos hconfirm]
        exact hnd
      · rw [if_neg hconfirm]
        simp only
        have hcons : NoDupSourcePath
            ((opId, mkMoveOperation file currentVaultPath targetVault targetFolder) :: t) := by
          refine List.Pairwise.cons ?_ hnd
          intro b hb
          simp only [mkMoveOperation]
          intro hc
          have : t.any (fun e => e.2.sourceFile.path = file.path) = true :=
            List.any_eq_true.mpr ⟨b, hb, by simpa using hc.symm⟩
          exact hact (by simpa [isOperationActive] using this)
        have htracker : (moveFile t fs corrupt opId file currentVaultPath targetVault
            targetFolder
            { deleteOriginal := settings.deleteOriginalAfterMove,
              preserveMetadata := settings.preserveFileHistory,
              showProgress := true, conflictStrategy := .rename }).tracker =
            eraseOp ((opId, mkMoveOperation file currentVaultPath targetVault
              targetFolder) :: t) opId := by
          unfold moveFile
          cases hb : moveFileBody fs corrupt opId file currentVaultPath targetVault
              targetFolder
              { deleteOriginal := settings.deleteOriginalAfterMove,
                preserveMetadata := settings.preserveFileHistory,
                showProgress := true, conflictStrategy := .rename } with
          | ok v => obtain ⟨np, fs1, tr1⟩ := v; rfl
          | error e => obtain ⟨msg, fs1, tr1⟩ := e; rfl
        rw [htracker]
        exact List.Pairwise.sublist (List.filter_sublist _) hcons

/-- A tracker with one active operation for `a.md`, used by the C2 witness. -/
def busyTrackerW : OpTracker :=
  [("opX", mkMoveOperation fileW "/sv" targetVaultW "Inbox")]

/-- Default settings used by witnesses (no confirmation dialog). -/
def settingsW : SettingsSlice :=
  { deleteOriginalAfterMove := false, preserveFileHistory := false,
    showConfirmation := false }

/-- Witness for C2: with an operation for `a.md` already tracked, the call is
rejected with all state unchanged; and on an empty tracker the final index
keeps the no-duplicate invariant. -/
theorem performFileMove_unique_source_witness :
    performFileMove busyTrackerW fsMoveW corruptNoneW "opY" fileW targetVaultW
      "Inbox" settingsW true "/sv" = (none, fsMoveW, busyTrackerW) ∧
    NoDupSourcePath (performFileMove [] fsMoveW corruptNoneW "opY" fileW targetVaultW
      "Inbox" settingsW true "/sv").2.2 :=
  ⟨(performFileMove_unique_source busyTrackerW fsMoveW corruptNoneW "opY" fileW
      targetVaultW "Inbox" settingsW true "/sv").1 (by decide),
   (performFileMove_unique_source [] fsMoveW corruptNoneW "opY" fileW
      targetVaultW "Inbox" settingsW true "/sv").2.2 List.Pairwise.nil⟩

/-! ## Claim C8: batch transfer -/

/-- The `(currentIndex, total, currentFileName)` progress reports, in order. -/
abbrev BatchProgress := List (Nat × Nat × String)

/-- JS `Map.set` on an association list (replace in place or append). -/
def mapSet (m : List (String × MoveResult)) (k : String) (v : MoveResult) :
    List (String × MoveResult) :=
  if m.any (fun e => e.1 = k) then m.map (fun e => if e.1 = k then (k, v) else e)
  else m ++ [(k, v)]

/-- The loop of `FileMover.moveFiles`: report progress `(i+1, total, name)`,
run `moveFile`, record the result under the file's source path, and stop
early when the item failed and the strategy is "ask".  `ids i` is the
operation id generated for the `i`-th item. -/
def moveFilesGo (corrupt : String → String → String) (ids : Nat → String)
    (sourceVaultPath : String) (targetVault : VaultConfig)
    (targetFolderPath : String) (options : MoveOptions) (total : Nat) :
    List TFile → Nat → FileSys → OpTracker → List (String × MoveResult) →
    BatchProgress →
    List (String × MoveResult) × FileSys × OpTracker × BatchProgress
  | [], _, fs, t, results, prog => (results, fs, t, prog)
  | f :: rest, i, fs, t, results, prog =>
    let prog1 := prog ++ [(i + 1, total, f.name)]
    let o := moveFile t fs corrupt (ids i) f sourceVaultPath targetVault
      targetFolderPath options
    let results1 := mapSet results f.path o.result
    if o.result.success = false ∧ options.conflictStrategy = ConflictStrategy.ask then
      (results1, o.fs, o.tracker, prog1)
    else
      moveFilesGo corrupt ids sourceVaultPath targetVault targetFolderPath options
        total rest (i + 1) o.fs o.tracker results1 prog1

/-- Embedding of `FileMover.moveFiles`. -/
def moveFiles (files : List TFile) (fs : FileSys) (t : OpTracker)
    (corrupt : String → String → String) (ids : Nat → String)
    (sourceVaultPath : String) (targetVault : VaultConfig)
    (targetFolderPath : String) (options : MoveOptions) :
    List (String × MoveResult) × FileSys × OpTracker × BatchProgress :=
  moveFilesGo corrupt ids sourceVaultPath targetVault targetFolderPath options
    files.length files 0 fs t [] []

/-- The per-item results of the same sequential run without the early stop
(the stopped run coincides with it on every processed item). -/
def runResults (corrupt : String → String → String) (ids : Nat → String)
    (sourceVaultPath : String) (targetVault : VaultConfig)
    (targetFolderPath : String) (options : MoveOptions) :
    List TFile → Nat → FileSys → OpTracker → List MoveResult
  | [], _, _, _ => []
  | f :: rest, i, fs, t =>
    let o := moveFile t fs corrupt (ids i) f sourceVaultPath targetVault
      targetFolderPath options
    o.result :: runResults corrupt ids sourceVaultPath targetVault targetFolderPath
      options rest (i + 1) o.fs o.tracker

/-- The progress reports expected for a processed prefix starting at index `i`. -/
def progOf (total : Nat) : List TFile → Nat → BatchProgress
  | [], _ => []
  | f :: rest, i => (i + 1, total, f.name) :: progOf total rest (i + 1)

/-- Entries of `mapSet m k v` come from `m` or are the new binding. -/
theorem mem_mapSet (m : List (String × MoveResult)) (k : String) (v : MoveResult) :
    ∀ e ∈ mapSet m k v, e ∈ m ∨ e = (k, v) := by
  intro e he
  unfold mapSet at he
  by_cases hany : m.any (fun x => x.1 = k) = true
  · rw [if_pos hany] at he
    rcases List.mem_map.mp he with ⟨x, hx, hxe⟩
    by_cases hxk : x.1 = k
    · right; rw [← hxe, if_pos hxk]
    · left; rw [← hxe, if_neg hxk]; exact hx
  · rw [if_neg hany] at he
    rcases List.mem_append.mp he with hx | hx
    · left; exact hx
    · right; simpa using hx

/-- `mapSet` binds the new key. -/
theorem mapSet_has_key (m : List (String × MoveResult)) (k : String) (v : MoveResult) :
    ∃ e ∈ mapSet m k v, e.1 = k := by
  unfold mapSet
  by_cases hany : m.any (fun x => x.1 = k) = true
  · rw [if_pos hany]
    rcases List.any_eq_true.mp hany with ⟨x, hx, hxk⟩
    refine ⟨(k, v), List.mem_map.mpr ⟨x, hx, ?_⟩, rfl⟩
    rw [if_pos (by simpa using hxk)]
  · rw [if_neg hany]
    exact ⟨(k, v), List.mem_append.mpr (Or.inr (by simp)), rfl⟩

/-- `mapSet` keeps every key that was already bound. -/
theorem mapSet_keeps_key (m : List (String × MoveResult)) (k : String)
    (v : MoveResult) (q : String) (h : ∃ e ∈ m, e.1 = q) :
    ∃ e ∈ mapSet m k v, e.1 = q := by
  rcases h with ⟨x, hx, hxq⟩
  unfold mapSet
  by_cases hany : m.any (fun e => e.1 = k) = true
  · rw [if_pos hany]
    by_cases hxk : x.1 = k
    · refine ⟨(k, v), List.mem_map.mpr ⟨x, hx, by rw [if_pos hxk]⟩, ?_⟩
      rw [← hxq, hxk]
    · exact ⟨x, List.mem_map.mpr ⟨x, hx, by rw [if_neg hxk]⟩, hxq⟩
  · rw [if_neg hany]
    exact ⟨x, List.mem_append.mpr (Or.inl hx), hxq⟩

/-- Characterization of the `moveFiles` loop, by induction on the remaining
items, with accumulator generalization: some prefix of length `k` is
processed; progress is reported as `(index+1, total, name)` before each
processed item; the result map binds exactly the accumulated and processed
source paths; the run stops before the end only on a failure under the "ask"
strategy, and never stops at an item that succeeded or under another
strategy. -/
theorem moveFilesGo_spec (corrupt : String → String → String) (ids : Nat → String)
    (sourceVaultPath : String) (targetVault : VaultConfig)
    (targetFolderPath : String) (options : MoveOptions) (total : Nat) :
    ∀ (rem : List TFile) (i : Nat) (fs : FileSys) (t : OpTracker)
      (results : List (String × MoveResult)) (prog : BatchProgress),
    ∃ k, k ≤ rem.length ∧
      (moveFilesGo corrupt ids sourceVaultPath targetVault targetFolderPath options
        total rem i fs t results prog).2.2.2 = prog ++ progOf total (rem.take k) i ∧
      (∀ q, (∃ e ∈ results, e.1 = q) →
        ∃ e ∈ (moveFilesGo corrupt ids sourceVaultPath targetVault targetFolderPath
          options total rem i fs t results prog).1, e.1 = q) ∧
      (∀ f ∈ rem.take k,
        ∃ e ∈ (moveFilesGo corrupt ids sourceVaultPath targetVault targetFolderPath
          options total rem i fs t results prog).1, e.1 = f.path) ∧
      (∀ e ∈ (moveFilesGo corrupt ids sourceVaultPath targetVault targetFolderPath
          options total rem i fs t results prog).1,
        (∃ f ∈ rem.take k, f.path = e.1) ∨ ∃ e0 ∈ results, e0.1 = e.1) ∧
      (k < rem.length →
        0 < k ∧ options.conflictStrategy = ConflictStrategy.ask ∧
        ∃ r, (runResults corrupt ids sourceVaultPath targetVault targetFolderPath
          options rem i fs t).get? (k - 1) = some r ∧ r.success = false) ∧
      (∀ j, j + 1 < k → options.conflictStrategy = ConflictStrategy.ask →
        ∀ r, (runResults corrupt ids sourceVaultPath targetVault targetFolderPath
          options rem i fs t).get? j = some r → r.success = true) := by
  intro rem
  induction rem with
  | nil =>
    intro i fs t results prog
    refine ⟨0, Nat.le_refl 0, ?_, ?_, ?_, ?_, ?_, ?_⟩
    · simp [moveFilesGo, progOf]
    · intro q hq
      simpa [moveFilesGo] using hq
    · intro f hf
      simp at hf
    · intro e he
      right
      exact ⟨e, by simpa [moveFilesGo] using he, rfl⟩
    · intro hk
      simp at hk
    · intro j hj
      omega
  | cons f rest ih =>
    intro i fs t results prog
    by_cases hstop : (moveFile t fs corrupt (ids i) f sourceVaultPath targetVault
        targetFolderPath options).result.success = false ∧
        options.conflictStrategy = ConflictStrategy.ask
    · have hgo : moveFilesGo corrupt ids sourceVaultPath targetVault targetFolderPath
          options total (f :: rest) i fs t results prog =
          (mapSet results f.path
            (moveFile t fs corrupt (ids i) f sourceVaultPath targetVault
              targetFolderPath options).result,
           (moveFile t fs corrupt (ids i) f sourceVaultPath targetVault
              targetFolderPath options).fs,
           (moveFile t fs corrupt (ids i) f sourceVaultPath targetVault
              targetFolderPath options).tracker,
           prog ++ [(i + 1, total, f.name)]) := by
        simp only [moveFilesGo]
        rw [if_pos hstop]
      refine ⟨1, by simp, ?_, ?_, ?_, ?_, ?_, ?_⟩
      · rw [hgo]
        simp [progOf]
      · intro q hq
        rw [hgo]
        exact mapSet_keeps_key results f.path _ q hq
      · intro g hg
        have hgf : g = f := by simpa using hg
        rw [hgo, hgf]
        exact mapSet_has_key results f.path _
      · intro e he
        rw [hgo] at he
        rcases mem_mapSet results f.path _ e he with hm | hkv
        · exact Or.inr ⟨e, hm, rfl⟩
        · exact Or.inl ⟨f, by simp, by rw [hkv]⟩
      · intro _
        exact ⟨Nat.one_pos, hstop.2,
          (moveFile t fs corrupt (ids i) f sourceVaultPath targetVault
            targetFolderPath options).result, by simp [runResults], hstop.1⟩
      · intro j hj
        omega
    · obtain ⟨k, hk, hprog, hkeep, hproc, hsub, hearly, hmin⟩ :=
        ih (i + 1)
          (moveFile t fs corrupt (ids i) f sourceVaultPath targetVault
            targetFolderPath options).fs
          (moveFile t fs corrupt (ids i) f sourceVaultPath targetVault
            targetFolderPath options).tracker
          (mapSet results f.path
            (moveFile t fs corrupt (ids i) f sourceVaultPath targetVault
              targetFolderPath options).result)
          (prog ++ [(i + 1, total, f.name)])
      have hgo : moveFilesGo corrupt ids sourceVaultPath targetVault targetFolderPath
          options total (f :: rest) i fs t results prog =
          moveFilesGo corrupt ids sourceVaultPath targetVault targetFolderPath options
            total rest (i + 1)
            (moveFile t fs corrupt (ids i) f sourceVaultPath targetVault
              targetFolderPath options).fs
            (moveFile t fs corrupt (ids i) f sourceVaultPath targetVault
              targetFolderPath options).tracker
            (mapSet results f.path
              (moveFile t fs corrupt (ids i) f sourceVaultPath targetVault
                targetFolderPath options).result)
            (prog ++ [(i + 1, total, f.name)]) := by
        simp only [moveFilesGo]
        rw [if_neg hstop]
      refine ⟨k + 1, by simpa using Nat.succ_le_succ hk, ?_, ?_, ?_, ?_, ?_, ?_⟩
      · rw [hgo, hprog]
        simp [progOf, List.append_assoc]
      · intro q hq
        rw [hgo]
        exact hkeep q (mapSet_keeps_key results f.path _ q hq)
      · intro g hg
        rw [hgo]
        rcases List.mem_cons.mp (by simpa using hg) with rfl | hg2
        · exact hkeep g.path (mapSet_has_key results g.path _)
        · exact hproc g hg2
      · intro e he
        rw [hgo] at he
        rcases hsub e he with ⟨g, hg, hge⟩ | ⟨e0, he0, he0e⟩
        · exact Or.inl ⟨g, by simp [List.mem_cons]; right; exact hg, hge⟩
        · rcases mem_mapSet results f.path _ e0 he0 with hm | rfl
          · exact Or.inr ⟨e0, hm, he0e⟩
          · exact Or.inl ⟨f, by simp, he0e⟩
      · intro hlt
        have hlt2 : k < rest.length := by simpa using Nat.lt_of_succ_lt_succ hlt
        obtain ⟨hpos, hask, r, hr, hrf⟩ := hearly hlt2
        refine ⟨Nat.succ_pos k, hask, r, ?_, hrf⟩
        simp only [runResults]
        rw [Nat.succ_sub_one]
        cases k with
        | zero => omega
        | succ k0 =>
          simpa [Nat.succ_sub_one] using hr
      · intro j hj hask r hr
        cases j with
        | zero =>
          have : r = (moveFile t fs corrupt (ids i) f sourceVaultPath targetVault
              targetFolderPath options).result := by
            simpa [runResults] using hr.symm
          subst this
          rcases Bool.eq_false_or_eq_true (moveFile t fs corrupt (ids i) f
            sourceVaultPath targetVault targetFolderPath options).result.success with hf2 | hf2
          · exact hf2
          · exact absurd ⟨hf2, hask⟩ hstop
        | succ j0 =>
          apply hmin j0 (by omega) hask r
          simpa [runResults] using hr

/-- C8: `moveFiles` processes the list strictly sequentially via `moveFile`
(by construction of `moveFilesGo`/`runResults`); some prefix of length `k`
is processed, the progress callback receives `(currentIndex, total,
currentFileName)` before each processed item, the returned map binds exactly
the processed files' source paths, processing stops before the end of the
list only when the item just processed failed under the "ask" strategy
(in particular all items are processed under every other strategy), and no
earlier processed item both failed and had the "ask" strategy. -/
theorem moveFiles_spec (files : List TFile) (fs : FileSys) (t : OpTracker)
    (corrupt : String → String → String) (ids : Nat → String)
    (sourceVaultPath : String) (targetVault : VaultConfig)
    (targetFolderPath : String) (options : MoveOptions) :
    ∃ k, k ≤ files.length ∧
      (moveFiles files fs t corrupt ids sourceVaultPath targetVault targetFolderPath
        options).2.2.2 = progOf files.length (files.take k) 0 ∧
      (∀ f ∈ files.take k,
        ∃ e ∈ (moveFiles files fs t corrupt ids sourceVaultPath targetVault
          targetFolderPath options).1, e.1 = f.path) ∧
      (∀ e ∈ (moveFiles files fs t corrupt ids sourceVaultPath targetVault
          targetFolderPath options).1, ∃ f ∈ files.take k, f.path = e.1) ∧
      (k < files.length →
        0 < k ∧ options.conflictStrategy = ConflictStrategy.ask ∧
        ∃ r, (runResults corrupt ids sourceVaultPath targetVault targetFolderPath
          options files 0 fs t).get? (k - 1) = some r ∧ r.success = false) ∧
      (∀ j, j + 1 < k → options.conflictStrategy = ConflictStrategy.ask →
        ∀ r, (runResults corrupt ids sourceVaultPath targetVault targetFolderPath
          options files 0 fs t).get? j = some r → r.success = true) := by
  obtain ⟨k, hk, hprog, _hkeep, hproc, hsub, hearly, hmin⟩ :=
    moveFilesGo_spec corrupt ids sourceVaultPath targetVault targetFolderPath options
      files.length files 0 fs t [] []
  refine ⟨k, hk, by simpa [moveFiles] using hprog, ?_, ?_, hearly, hmin⟩
  · intro f hf
    exact hproc f hf
  · intro e he
    rcases hsub e he with h | ⟨e0, he0, _⟩
    · exact h
    · simp at he0

/-! ## Claim C9: recent destinations -/

/-- `RecentDestination` from src/src/types.ts. -/
structure RecentDestination where
  vaultId : String
  path : String
  timestamp : Nat
deriving DecidableEq, Repr

/-- The sort comparator `(a, b) => b.timestamp - a.timestamp`
(most-recent-first). -/
def moreRecent (a b : RecentDestination) : Bool := b.timestamp ≤ a.timestamp

/-- The filter `addRecentDestination` applies first: drop every entry for
the same `(vaultId, path)` pair. -/
def dropPair (list : List RecentDestination) (vaultId p : String) :
    List RecentDestination :=
  list.filter (fun d => !(d.vaultId = vaultId && d.path = p))

/-- Embedding of `TeleporterPlugin.addRecentDestination` (src/main.ts);
`now` is `Date.now()`.  The new entry is pushed at the END of the list; only
when the list then exceeds 20 entries is it sorted most-recent-first and
truncated to 20. -/
def addRecentDestination (list : List RecentDestination) (vaultId p : String)
    (now : Nat) : List RecentDestination :=
  let l1 := dropPair list vaultId p
  let l2 := l1 ++ [⟨vaultId, p, now⟩]
  if l2.length > 20 then (l2.mergeSort moreRecent).take 20 else l2

/-- Most-recent-first: timestamps weakly decreasing along the list. -/
def SortedDescTs (l : List RecentDestination) : Prop :=
  l.Pairwise (fun a b => b.timestamp ≤ a.timestamp)

/-- At most one entry per `(vaultId, path)` pair. -/
def NoDupPair (l : List RecentDestination) : Prop :=
  l.Pairwise (fun a b => ¬(a.vaultId = b.vaultId ∧ a.path = b.path))

/-- C9 counterexample: the persisted list is not most-recent-first after
every call.  Starting from one entry with timestamp 1, adding a second
destination at timestamp 2 appends it at the end, leaving the older entry
first. -/
theorem addRecentDestination_not_most_recent_first :
    ¬ SortedDescTs (addRecentDestination [⟨"v1", "/a", 1⟩] "v1" "/b" 2) := by
  unfold SortedDescTs
  decide

/-- C9 amended: after every call, the list has at most 20 entries and (when
the previous list had no duplicate pair) at most one entry per
`(vaultId, path)` pair; it is sorted most-recent-first whenever the call
overflowed the cap (the filtered list plus the new entry exceeded 20);
otherwise the result is the filtered list with the new entry appended at the
end - most-recent-last, not most-recent-first. -/
theorem addRecentDestination_spec (list : List RecentDestination)
    (vaultId p : String) (now : Nat) (hnd : NoDupPair list) :
    (addRecentDestination list vaultId p now).length ≤ 20 ∧
    NoDupPair (addRecentDestination list vaultId p now) ∧
    ((dropPair list vaultId p).length + 1 > 20 →
      SortedDescTs (addRecentDestination list vaultId p now)) ∧
    ((dropPair list vaultId p).length + 1 ≤ 20 →
      addRecentDestination list vaultId p now =
        dropPair list vaultId p ++ [⟨vaultId, p, now⟩]) := by
  have hl2 : (dropPair list vaultId p ++ [(⟨vaultId, p, now⟩ : RecentDestination)]).length
      = (dropPair list vaultId p).length + 1 := by
    simp
  have hnd2 : List.Pairwise (fun a b => ¬(a.vaultId = b.vaultId ∧ a.path = b.path))
      (dropPair list vaultId p ++ [⟨vaultId, p, now⟩]) := by
    rw [List.pairwise_append]
    refine ⟨List.Pairwise.sublist (List.filter_sublist _) hnd, by simp, ?_⟩
    intro a ha b hb
    have hbb : b = (⟨vaultId, p, now⟩ : RecentDestination) := by simpa using hb
    subst hbb
    have hprop := List.of_mem_filter ha
    intro hc
    rw [hc.1, hc.2] at hprop
    simp at hprop
  have hsym : ∀ {x y : RecentDestination},
      ¬(x.vaultId = y.vaultId ∧ x.path = y.path) →
      ¬(y.vaultId = x.vaultId ∧ y.path = x.path) := by
    intro x y hxy hc
    exact hxy ⟨hc.1.symm, hc.2.symm⟩
  unfold addRecentDestination
  by_cases hover : (dropPair list vaultId p ++
      [(⟨vaultId, p, now⟩ : RecentDestination)]).length > 20
  · rw [if_pos hover]
    refine ⟨?_, ?_, ?_, ?_⟩
    · simpa using Nat.min_le_left 20 _
    · unfold NoDupPair
      apply List.Pairwise.sublist (List.take_sublist _ _)
      exact (List.Perm.pairwise_iff hsym
        (List.mergeSort_perm _ moreRecent)).mpr hnd2
    · intro _
      unfold SortedDescTs
      apply List.Pairwise.sublist (List.take_sublist _ _)
      have := @List.sorted_mergeSort RecentDestination moreRecent
        (fun a b c hab hbc => by
          unfold moreRecent at hab hbc ⊢
          simp only [decide_eq_true_eq] at hab hbc ⊢
          omega)
        (fun a b => by
          unfold moreRecent
          rcases Nat.le_total b.timestamp a.timestamp with hle | hle
          · simp [hle]
          · simp [hle])
        (dropPair list vaultId p ++ [⟨vaultId, p, now⟩])
      refine this.imp ?_
      intro a b hab
      simpa [moreRecent] using hab
    · intro hle
      rw [hl2] at hover
      omega
  · rw [if_neg hover]
    rw [hl2] at hover
    refine ⟨by omega, ?_, by omega, fun _ => rfl⟩
    unfold NoDupPair
    exact hnd2

/-- Witness for C9 (amended) at a concrete input: adding a destination to a
one-entry list stays within the cap and appends at the end. -/
theorem addRecentDestination_spec_witness :
    (addRecentDestination [⟨"v1", "/a", 1⟩] "v1" "/b" 2).length ≤ 20 ∧
    addRecentDestination [⟨"v1", "/a", 1⟩] "v1" "/b" 2 =
      dropPair [⟨"v1", "/a", 1⟩] "v1" "/b" ++ [⟨"v1", "/b", 2⟩] :=
  ⟨(addRecentDestination_spec [⟨"v1", "/a", 1⟩] "v1" "/b" 2
      (by unfold NoDupPair; decide)).1,
   (addRecentDestination_spec [⟨"v1", "/a", 1⟩] "v1" "/b" 2
      (by unfold NoDupPair; decide)).2.2.2 (by decide)⟩

/-! ## Claim C4: getAvailableFilename

The development below establishes, over arbitrary filesystems and paths:
the function returns a free path unchanged; otherwise it returns the first
counter-candidate that is free (the fuel `occupiedCount fs + 1` always
suffices, by pigeonhole over the injective candidate names); the result
never collides with an existing path, preserves the extension, and the
function is idempotent. -/

/-- `digitChar` produces only digit characters, never `'.'` or `'/'`. -/
theorem digitChar_good (d : Nat) : digitChar d ≠ '.' ∧ digitChar d ≠ '/' := by
  unfold digitChar
  split <;> exact ⟨by decide, by decide⟩

/-- The decimal rendering does not depend on the fuel, once sufficient. -/
theorem toDecimalAux_irrel : ∀ n fuel1 fuel2, n ≤ fuel1 → n ≤ fuel2 →
    toDecimalAux fuel1 n = toDecimalAux fuel2 n := by
  intro n
  induction n using Nat.strong_induction_on with
  | _ n ih =>
    intro fuel1 fuel2 h1 h2
    cases fuel1 with
    | zero =>
      have hn : n = 0 := by omega
      subst hn
      cases fuel2 with
      | zero => rfl
      | succ f2 => simp [toDecimalAux]
    | succ f1 =>
      cases fuel2 with
      | zero =>
        have hn : n = 0 := by omega
        subst hn
        simp [toDecimalAux]
      | succ f2 =>
        by_cases hlt : n < 10
        · simp [toDecimalAux, hlt]
        · simp only [toDecimalAux, if_neg hlt]
          have hd : n / 10 < n := Nat.div_lt_self (by omega) (by omega)
          rw [ih (n / 10) hd f1 f2 (by omega) (by omega)]

/-- The recursion equation of `toDecimal`. -/
theorem toDecimal_eq (n : Nat) :
    toDecimal n = if n < 10 then [digitChar n]
      else toDecimal (n / 10) ++ [digitChar (n % 10)] := by
  unfold toDecimal
  cases n with
  | zero => simp [toDecimalAux]
  | succ m =>
    by_cases hlt : m + 1 < 10
    · simp [toDecimalAux, hlt]
    · simp only [toDecimalAux, if_neg hlt]
      have hd : (m + 1) / 10 < m + 1 := Nat.div_lt_self (by omega) (by omega)
      rw [toDecimalAux_irrel ((m + 1) / 10) m ((m + 1) / 10) (by omega) (Nat.le_refl _)]

/-- The decimal rendering is never empty. -/
theorem toDecimal_ne_nil (n : Nat) : toDecimal n ≠ [] := by
  rw [toDecimal_eq]
  by_cases h : n < 10
  · simp [h]
  · simp [h]

/-- Every character of the decimal rendering is a digit - in particular
neither `'.'` nor `'/'`. -/
theorem toDecimal_good (n : Nat) : ∀ c ∈ toDecimal n, c ≠ '.' ∧ c ≠ '/' := by
  induction n using Nat.strong_induction_on with
  | _ n ih =>
    rw [toDecimal_eq]
    by_cases h : n < 10
    · rw [if_pos h]
      intro c hc
      rw [List.mem_singleton.mp hc]
      exact digitChar_good n
    · rw [if_neg h]
      intro c hc
      rcases List.mem_append.mp hc with h1 | h2
      · exact ih (n / 10) (Nat.div_lt_self (by omega) (by omega)) c h1
      · rw [List.mem_singleton.mp h2]
        exact digitChar_good _

/-- The value of a digit character produced by `digitChar`. -/
theorem digitChar_val (d : Nat) (h : d < 10) : (digitChar d).toNat - 48 = d := by
  interval_cases d <;> decide

/-- Folding the decimal evaluation over `toDecimal n` from any accumulator. -/
theorem foldl_toDecimal (n : Nat) : ∀ a : Nat,
    (toDecimal n).foldl (fun a c => 10 * a + (c.toNat - 48)) a
      = a * 10 ^ (toDecimal n).length + n := by
  induction n using Nat.strong_induction_on with
  | _ n ih =>
    intro a
    rw [toDecimal_eq]
    by_cases h : n < 10
    · rw [if_pos h]
      simp [List.foldl, digitChar_val n h]
      omega
    · rw [if_neg h]
      rw [List.foldl_append]
      rw [ih (n / 10) (Nat.div_lt_self (by omega) (by omega)) a]
      simp only [List.foldl, List.length_append, List.length_singleton]
      rw [digitChar_val (n % 10) (Nat.mod_lt _ (by omega))]
      rw [pow_succ]
      have hdm := Nat.div_add_mod n 10
      set Q := a * 10 ^ (toDecimal (n / 10)).length with hQ
      ring_nf
      omega

/-- Decimal rendering is injective. -/
theorem toDecimal_injective {m n : Nat} (h : toDecimal m = toDecimal n) : m = n := by
  have hm := foldl_toDecimal m 0
  have hn := foldl_toDecimal n 0
  rw [h] at hm
  simp only [Nat.zero_mul, Nat.zero_add] at hm hn
  rw [hm] at hn
  exact hn

/-- The cons equation of `stripLeadSlashes`. -/
theorem stripLead_cons (c : Char) (r : List Char) :
    stripLeadSlashes (c :: r) = if c = '/' then stripLeadSlashes r else c :: r := rfl

/-- `stripLeadSlashes` does nothing to a list without `'/'`. -/
theorem stripLead_eq_self (m : List Char) (h : ∀ c ∈ m, c ≠ '/') :
    stripLeadSlashes m = m := by
  cases m with
  | nil => rfl
  | cons c r =>
    rw [stripLead_cons, if_neg (h c (by simp))]

/-- `stripLeadSlashes` over an all-slash prefix. -/
theorem stripLead_append_all (w z : List Char) (h : ∀ c ∈ w, c = '/') :
    stripLeadSlashes (w ++ z) = stripLeadSlashes z := by
  induction w with
  | nil => rfl
  | cons c r ih =>
    rw [List.cons_append]
    rw [stripLead_cons, if_pos (h c (by simp))]
    exact ih (fun x hx => h x (by simp [hx]))

/-- `stripLeadSlashes` over a prefix containing a non-slash. -/
theorem stripLead_append_not (w z : List Char) (h : ¬ ∀ c ∈ w, c = '/') :
    stripLeadSlashes (w ++ z) = stripLeadSlashes w ++ z := by
  induction w with
  | nil => exact absurd (by simp) h
  | cons c r ih =>
    by_cases hc : c = '/'
    · rw [List.cons_append]
      rw [stripLead_cons, if_pos hc, stripLead_cons, if_pos hc]
      apply ih
      intro hall
      apply h
      intro x hx
      rcases List.mem_cons.mp hx with rfl | hx2
      · exact hc
      · exact hall x hx2
    · rw [List.cons_append]
      rw [stripLead_cons, if_neg hc, stripLead_cons, if_neg hc, List.cons_append]

/-- `takeWhile` keeps a list all of whose elements satisfy the predicate. -/
theorem takeWhile_all (l : List Char) (p : Char → Bool)
    (h : ∀ a ∈ l, p a = true) : l.takeWhile p = l := by
  induction l with
  | nil => rfl
  | cons c r ih =>
    rw [List.takeWhile_cons, if_pos (h c (by simp))]
    rw [ih (fun a ha => h a (by simp [ha]))]

/-- `takeWhile` over `l ++ c :: t` stops exactly at `c` when all of `l`
satisfies the predicate and `c` does not. -/
theorem takeWhile_append_stop (l t : List Char) (c : Char) (p : Char → Bool)
    (hall : ∀ a ∈ l, p a = true) (hc : p c = false) :
    (l ++ c :: t).takeWhile p = l := by
  induction l with
  | nil =>
    rw [List.nil_append, List.takeWhile_cons, hc]
    simp
  | cons d r ih =>
    rw [List.cons_append, List.takeWhile_cons, if_pos (hall d (by simp))]
    rw [ih (fun a ha => hall a (by simp [ha]))]

/-- The head of a nonempty `dropWhile` fails the predicate. -/
theorem dropWhile_head_false (l : List Char) (p : Char → Bool) (c : Char)
    (t : List Char) (h : l.dropWhile p = c :: t) : p c = false := by
  induction l with
  | nil => simp at h
  | cons d r ih =>
    rw [List.dropWhile_cons] at h
    by_cases hd : p d = true
    · rw [if_pos hd] at h
      exact ih h
    · rw [if_neg hd] at h
      rw [← (List.cons.injEq d r c t).mp h |>.1]
      exact Bool.eq_false_iff.mpr hd

/-- Characters of a basename are never `'/'`. -/
theorem baseL_chars (p : List Char) : ∀ c ∈ baseL p, c ≠ '/' := by
  intro c hc
  unfold baseL at hc
  have := List.mem_takeWhile_imp (List.mem_reverse.mp hc)
  simpa using this

/-- `baseL` of a slash-free list. -/
theorem baseL_all (m : List Char) (hm : ∀ c ∈ m, c ≠ '/') : baseL m = m := by
  unfold baseL
  rw [takeWhile_all _ _ (fun a ha => by simpa using hm a (List.mem_reverse.mp ha))]
  simp

/-- `baseL` after appending a slash and a slash-free tail. -/
theorem baseL_append_ne (x m : List Char) (hm : ∀ c ∈ m, c ≠ '/') :
    baseL (x ++ '/' :: m) = m := by
  unfold baseL
  have hrw : (x ++ '/' :: m).reverse = m.reverse ++ '/' :: x.reverse := by
    simp
  rw [hrw, takeWhile_append_stop _ _ _ _
    (fun a ha => by simpa using hm a (List.mem_reverse.mp ha)) (by simp)]
  simp

/-- `baseL` of a `pathJoinL` with a nonempty slash-free last segment. -/
theorem baseL_pathJoin (a m : List Char) (hm : ∀ c ∈ m, c ≠ '/') (hne : m ≠ []) :
    baseL (pathJoinL a m) = m := by
  unfold pathJoinL
  rw [if_neg hne]
  by_cases ha : a = [] ∨ a = ['.']
  · rw [if_pos ha]
    exact baseL_all m hm
  · rw [if_neg ha, stripLead_eq_self m hm]
    exact baseL_append_ne _ m hm

/-- A dot-free basename has no extension. -/
theorem extFromBase_no_dot (b : List Char) (h : ∀ c ∈ b, c ≠ '.') :
    extFromBase b = [] := by
  unfold extFromBase
  rw [takeWhile_all _ _ (fun a ha => by simpa using h a (List.mem_reverse.mp ha))]
  simp

/-- A basename whose only dot is leading has no extension (Node's
hidden-file rule). -/
theorem extFromBase_head_dot (rest : List Char) (h : ∀ c ∈ rest, c ≠ '.') :
    extFromBase ('.' :: rest) = [] := by
  unfold extFromBase
  have hrw : ('.' :: rest).reverse = rest.reverse ++ '.' :: [] := by simp
  rw [hrw, takeWhile_append_stop _ _ _ _
    (fun a ha => by simpa using h a (List.mem_reverse.mp ha)) (by simp)]
  simp

/-- A basename `bn ++ '.' :: e` with `bn` nonempty and `e` dot-free has
extension `'.' :: e`. -/
theorem extFromBase_with_ext (bn e : List Char) (hbn : bn ≠ [])
    (he : ∀ c ∈ e, c ≠ '.') : extFromBase (bn ++ '.' :: e) = '.' :: e := by
  unfold extFromBase
  have hrw : (bn ++ '.' :: e).reverse = e.reverse ++ '.' :: bn.reverse := by simp
  rw [hrw, takeWhile_append_stop _ _ _ _
    (fun a ha => by simpa using he a (List.mem_reverse.mp ha)) (by simp)]
  have hlb : bn.length ≠ 0 := by
    intro hc
    exact hbn (List.length_eq_zero.mp hc)
  have hL1 : ¬ ((e.reverse).length = (bn ++ '.' :: e).length) := by
    simp only [List.length_reverse, List.length_append, List.length_cons]
    omega
  have hL2 : ¬ ((e.reverse).length + 1 = (bn ++ '.' :: e).length) := by
    simp only [List.length_reverse, List.length_append, List.length_cons]
    omega
  rw [if_neg hL1, if_neg hL2]
  simp

/-- Every basename decomposes in exactly one of three ways with respect to
its extension: dot-free (no extension), a single leading dot (no extension),
or `bn ++ '.' :: e` with `bn` nonempty and `e` dot-free (extension
`'.' :: e`). -/
theorem extFromBase_cases (b : List Char) :
    (extFromBase b = [] ∧ ∀ c ∈ b, c ≠ '.') ∨
    (∃ rest, b = '.' :: rest ∧ (∀ c ∈ rest, c ≠ '.') ∧ extFromBase b = []) ∨
    (∃ bn e, b = bn ++ '.' :: e ∧ bn ≠ [] ∧ (∀ c ∈ e, c ≠ '.') ∧
      extFromBase b = '.' :: e) := by
  set E := b.reverse.takeWhile (fun c => c ≠ '.') with hE
  set D := b.reverse.dropWhile (fun c => c ≠ '.') with hD
  have hsplit : E ++ D = b.reverse := List.takeWhile_append_dropWhile _ _
  have hefree : ∀ c ∈ E, c ≠ '.' := by
    intro c hc
    rw [hE] at hc
    simpa using List.mem_takeWhile_imp hc
  cases hd : D with
  | nil =>
    have hdw : b.reverse.dropWhile (fun c => c ≠ '.') = [] := by rw [← hD]; exact hd
    have hnd : ∀ c ∈ b, c ≠ '.' := by
      intro c hc
      simpa using List.dropWhile_eq_nil_iff.mp hdw c (List.mem_reverse.mpr hc)
    exact Or.inl ⟨extFromBase_no_dot b hnd, hnd⟩
  | cons c d2 =>
    have hDval : b.reverse.dropWhile (fun c => c ≠ '.') = c :: d2 := by
      rw [← hD]; exact hd
    have hcdot : c = '.' := by
      simpa using dropWhile_head_false b.reverse _ c d2 hDval
    subst hcdot
    have hbrev : b.reverse = E ++ '.' :: d2 := by
      conv_lhs => rw [← hsplit]
      rw [hd]
    have hb : b = d2.reverse ++ '.' :: E.reverse := by
      have := congrArg List.reverse hbrev
      simpa using this
    have herev : ∀ c ∈ E.reverse, c ≠ '.' := by
      intro c hc
      exact hefree c (List.mem_reverse.mp hc)
    cases hd2 : d2 with
    | nil =>
      refine Or.inr (Or.inl ⟨E.reverse, ?_, herev, ?_⟩)
      · rw [hb, hd2]
        simp
      · have hbeq : b = '.' :: E.reverse := by rw [hb, hd2]; simp
        rw [hbeq]
        exact extFromBase_head_dot _ herev
    | cons c3 d3 =>
      refine Or.inr (Or.inr ⟨d2.reverse, E.reverse, hb, ?_, herev, ?_⟩)
      · rw [hd2]
        simp
      · rw [hb]
        exact extFromBase_with_ext _ _ (by rw [hd2]; simp) herev

/-- Characters of an extension are never `'/'` when the basename has none. -/
theorem extFromBase_chars (b : List Char) (hb : ∀ c ∈ b, c ≠ '/') :
    ∀ c ∈ extFromBase b, c ≠ '/' := by
  rcases extFromBase_cases b with ⟨he, _⟩ | ⟨rest, _, _, he⟩ | ⟨bn, e, hbe, _, _, he⟩
  · rw [he]; intro c hc; simp at hc
  · rw [he]; intro c hc; simp at hc
  · rw [he]
    intro c hc
    rcases List.mem_cons.mp hc with rfl | hc2
    · decide
    · exact hb c (by rw [hbe]; exact List.mem_append.mpr (Or.inr (by simp [hc2])))

/-- When the basename is `bn ++ '.' :: e` with extension `'.' :: e`, the
two-argument basename strips exactly that extension, leaving `bn`. -/
theorem basenameSuffixL_strips (p : List Char) (bn e : List Char)
    (hb : baseL p = bn ++ '.' :: e) (hbn : bn ≠ []) :
    basenameSuffixL p ('.' :: e) = bn := by
  unfold basenameSuffixL
  rw [hb]
  have hlbn : bn.length ≠ 0 := fun hc => hbn (List.length_eq_zero.mp hc)
  rw [if_pos]
  · have hlen : (bn ++ '.' :: e).length - ('.' :: e).length = bn.length := by
      simp
    rw [hlen]
    exact List.take_left bn ('.' :: e)
  · refine ⟨by simp, ?_, ?_⟩
    · intro hc
      have hlen2 := congrArg List.length hc
      simp only [List.length_append, List.length_cons] at hlen2
      omega
    · exact List.isSuffixOf_iff_suffix.mpr ⟨bn, rfl⟩

/-- When the computed extension is empty, the two-argument basename is the
whole basename. -/
theorem basenameSuffixL_nil (p : List Char) :
    basenameSuffixL p [] = baseL p := by
  unfold basenameSuffixL
  rw [if_neg]
  intro hc
  exact hc.1 rfl

/-- The name one loop iteration builds before joining:
`baseName + " " + counter + ext`. -/
def midCand (baseName ext : List Char) (k : Nat) : List Char :=
  baseName ++ ' ' :: (toDecimal k ++ ext)

/-- The two-argument basename is a sublist selection of the basename. -/
theorem basenameSuffixL_subset (p ext : List Char) :
    ∀ c ∈ basenameSuffixL p ext, c ∈ baseL p := by
  intro c hc
  simp only [basenameSuffixL] at hc
  split at hc
  · exact List.take_subset _ _ hc
  · exact hc

/-- No character of a candidate name is a separator. -/
theorem midCand_chars (fp : String) (k : Nat) :
    ∀ c ∈ midCand (basenameSuffixS fp (extnameS fp)).data (extnameS fp).data k,
      c ≠ '/' := by
  intro c hc
  unfold midCand at hc
  rcases List.mem_append.mp hc with h1 | h2
  · have h1b : c ∈ basenameSuffixL fp.data (extL fp.data) := h1
    exact baseL_chars fp.data c (basenameSuffixL_subset fp.data _ c h1b)
  · rcases List.mem_cons.mp h2 with rfl | h3
    · decide
    · rcases List.mem_append.mp h3 with h4 | h5
      · exact (toDecimal_good k c h4).2
      · have h5b : c ∈ extFromBase (baseL fp.data) := h5
        exact extFromBase_chars (baseL fp.data) (baseL_chars fp.data) c h5b

/-- The extension computation on a candidate name equals the original
extension (list level). -/
theorem extFromBase_candidate_mid (p dec : List Char) (hdec_ne : dec ≠ [])
    (hdec : ∀ c ∈ dec, c ≠ '.') :
    extFromBase (basenameSuffixL p (extL p) ++ ' ' :: (dec ++ extL p)) = extL p := by
  rcases extFromBase_cases (baseL p) with ⟨hnil, hnodot⟩ | ⟨rest, hb, hrnd, hnil⟩ |
    ⟨bn, e, hb, hbn, hend, hex⟩
  · have hextp : extL p = [] := by rw [extL]; exact hnil
    rw [hextp, basenameSuffixL_nil]
    simp only [List.append_nil]
    apply extFromBase_no_dot
    intro c hc
    rcases List.mem_append.mp hc with h1 | h2
    · exact hnodot c h1
    · rcases List.mem_cons.mp h2 with rfl | h3
      · decide
      · exact hdec c h3
  · have hextp : extL p = [] := by rw [extL]; exact hnil
    rw [hextp, basenameSuffixL_nil, hb]
    simp only [List.append_nil, List.cons_append]
    apply extFromBase_head_dot
    intro c hc
    rcases List.mem_append.mp hc with h1 | h2
    · exact hrnd c h1
    · rcases List.mem_cons.mp h2 with rfl | h3
      · decide
      · exact hdec c h3
  · have hextp : extL p = '.' :: e := by rw [extL]; exact hex
    rw [hextp, basenameSuffixL_strips p bn e hb hbn]
    have hassoc : bn ++ ' ' :: (dec ++ '.' :: e) = (bn ++ ' ' :: dec) ++ '.' :: e := by
      simp
    rw [hassoc]
    apply extFromBase_with_ext
    · simp
    · exact hend

/-- The rename candidate preserves the original file extension. -/
theorem extname_candidate (fp : String) (k : Nat) :
    extnameS (availCandidate (dirnameS fp)
      (basenameSuffixS fp (extnameS fp)) (extnameS fp) k) = extnameS fp := by
  have hmid := midCand_chars fp k
  have hmid_ne : midCand (basenameSuffixS fp (extnameS fp)).data
      (extnameS fp).data k ≠ [] := by
    unfold midCand
    simp
  show (⟨extFromBase (baseL (pathJoinL (dirnameS fp).data
      (midCand (basenameSuffixS fp (extnameS fp)).data (extnameS fp).data k)))⟩ :
      String) = (⟨extL fp.data⟩ : String)
  rw [baseL_pathJoin _ _ hmid hmid_ne]
  apply congrArg
  show extFromBase (basenameSuffixL fp.data (extL fp.data) ++ ' ' ::
    (toDecimal k ++ extL fp.data)) = extL fp.data
  exact extFromBase_candidate_mid fp.data (toDecimal k) (toDecimal_ne_nil k)
    (fun c hc => (toDecimal_good k c hc).1)

/-- Structure of the absolute candidate path: a fixed prefix followed by the
candidate name (the joints depend only on the vault root and directory). -/
theorem absCandidate_structure (vp dir baseName ext : List Char)
    (hmidall : ∀ k, ∀ c ∈ midCand baseName ext k, c ≠ '/') :
    ∃ P : List Char, ∀ k : Nat,
      pathJoinL vp (pathJoinL dir (midCand baseName ext k)) =
        P ++ midCand baseName ext k := by
  have hmid_ne : ∀ k, midCand baseName ext k ≠ [] := by
    intro k
    unfold midCand
    simp
  by_cases hd : dir = [] ∨ dir = ['.']
  · have hinner : ∀ k, pathJoinL dir (midCand baseName ext k) =
        midCand baseName ext k := by
      intro k
      unfold pathJoinL
      rw [if_neg (hmid_ne k), if_pos hd]
    by_cases hv : vp = [] ∨ vp = ['.']
    · refine ⟨[], fun k => ?_⟩
      rw [hinner k]
      unfold pathJoinL
      rw [if_neg (hmid_ne k), if_pos hv]
      simp
    · refine ⟨stripTrailSlashes vp ++ ['/'], fun k => ?_⟩
      rw [hinner k]
      unfold pathJoinL
      rw [if_neg (hmid_ne k), if_neg hv, stripLead_eq_self _ (hmidall k)]
      simp
  · have hinner : ∀ k, pathJoinL dir (midCand baseName ext k) =
        (stripTrailSlashes dir ++ ['/']) ++ midCand baseName ext k := by
      intro k
      unfold pathJoinL
      rw [if_neg (hmid_ne k), if_neg hd, stripLead_eq_self _ (hmidall k)]
      simp
    by_cases hv : vp = [] ∨ vp = ['.']
    · refine ⟨stripTrailSlashes dir ++ ['/'], fun k => ?_⟩
      rw [hinner k]
      unfold pathJoinL
      rw [if_neg (by simp), if_pos hv]
    · by_cases hw : ∀ c ∈ stripTrailSlashes dir ++ ['/'], c = '/'
      · refine ⟨stripTrailSlashes vp ++ ['/'], fun k => ?_⟩
        rw [hinner k]
        unfold pathJoinL
        rw [if_neg (by simp), if_neg hv]
        rw [stripLead_append_all _ _ hw, stripLead_eq_self _ (hmidall k)]
        simp
      · refine ⟨stripTrailSlashes vp ++ '/' ::
          stripLeadSlashes (stripTrailSlashes dir ++ ['/']), fun k => ?_⟩
        rw [hinner k]
        unfold pathJoinL
        rw [if_neg (by simp), if_neg hv]
        rw [stripLead_append_not _ _ hw]
        simp

/-- The candidate name determines the counter. -/
theorem midCand_injective (baseName ext : List Char) {k1 k2 : Nat}
    (h : midCand baseName ext k1 = midCand baseName ext k2) : k1 = k2 := by
  unfold midCand at h
  have h1 := List.append_cancel_left h
  have h2 : toDecimal k1 ++ ext = toDecimal k2 ++ ext :=
    ((List.cons.injEq _ _ _ _).mp h1).2
  exact toDecimal_injective (List.append_cancel_right h2)

/-- The absolute candidate path determines the counter. -/
theorem absCandidate_injective (vault : VaultConfig) (dir baseName ext : String)
    (hmidall : ∀ k, ∀ c ∈ midCand baseName.data ext.data k, c ≠ '/')
    {k1 k2 : Nat}
    (h : getFilePath vault (availCandidate dir baseName ext k1) =
      getFilePath vault (availCandidate dir baseName ext k2)) : k1 = k2 := by
  obtain ⟨P, hP⟩ := absCandidate_structure vault.path.data dir.data baseName.data
    ext.data hmidall
  have hdata : pathJoinL vault.path.data (pathJoinL dir.data
        (midCand baseName.data ext.data k1)) =
      pathJoinL vault.path.data (pathJoinL dir.data
        (midCand baseName.data ext.data k2)) :=
    congrArg String.data h
  rw [hP k1, hP k2] at hdata
  exact midCand_injective _ _ (List.append_cancel_left hdata)

/-- All occupied paths of the filesystem, as one list. -/
def occupiedPaths (fs : FileSys) : List String := fs.files.map Prod.fst ++ fs.dirs

/-- `existsSync` is membership in the occupied paths. -/
theorem existsSync_iff_mem (fs : FileSys) (p : String) :
    fs.existsSync p = true ↔ p ∈ occupiedPaths fs := by
  unfold FileSys.existsSync occupiedPaths
  rw [Bool.or_eq_true, List.any_eq_true]
  constructor
  · rintro (⟨e, he, hep⟩ | hdir)
    · exact List.mem_append.mpr (Or.inl (List.mem_map.mpr ⟨e, he, by simpa using hep⟩))
    · exact List.mem_append.mpr (Or.inr (by simpa using hdir))
  · intro hmem
    rcases List.mem_append.mp hmem with hm | hm
    · rcases List.mem_map.mp hm with ⟨e, he, hep⟩
      exact Or.inl ⟨e, he, by simpa using hep⟩
    · exact Or.inr (by simpa using hm)

/-- The occupied-path list has `occupiedCount` entries. -/
theorem occupiedPaths_length (fs : FileSys) :
    (occupiedPaths fs).length = occupiedCount fs := by
  unfold occupiedPaths occupiedCount
  simp

/-- Pigeonhole: among the first `occupiedCount fs + 1` candidate counters,
one is free. -/
theorem exists_free_candidate (fs : FileSys) (vault : VaultConfig)
    (dir baseName ext : String)
    (hmidall : ∀ k, ∀ c ∈ midCand baseName.data ext.data k, c ≠ '/') :
    ∃ k, 1 ≤ k ∧ k ≤ occupiedCount fs + 1 ∧
      fileExists fs vault (availCandidate dir baseName ext k) = false := by
  by_contra hcon
  push_neg at hcon
  have hmem : ∀ k ∈ Finset.Icc 1 (occupiedCount fs + 1),
      getFilePath vault (availCandidate dir baseName ext k) ∈
        (occupiedPaths fs).toFinset := by
    intro k hk
    rw [List.mem_toFinset, ← existsSync_iff_mem]
    have h2 := hcon k (Finset.mem_Icc.mp hk).1 (Finset.mem_Icc.mp hk).2
    exact Bool.ne_false_iff.mp h2
  have hinj : Set.InjOn (fun k => getFilePath vault (availCandidate dir baseName ext k))
      (Finset.Icc 1 (occupiedCount fs + 1)) := by
    intro k1 _ k2 _ he
    exact absCandidate_injective vault dir baseName ext hmidall he
  have hcard := Finset.card_le_card_of_injOn _ hmem hinj
  rw [Nat.card_Icc] at hcard
  have hlist := List.toFinset_card_le (occupiedPaths fs)
  rw [occupiedPaths_length] at hlist
  omega

/-- The step equation of the rename loop. -/
theorem availLoop_succ (fs : FileSys) (vault : VaultConfig)
    (dir baseName ext : String) (f counter : Nat) (np : String) :
    availLoop fs vault dir baseName ext (f + 1) counter np =
      if fileExists fs vault np then
        availLoop fs vault dir baseName ext f (counter + 1)
          (availCandidate dir baseName ext counter)
      else np := rfl

/-- The loop returns its argument when the argument is free. -/
theorem availLoop_stops (fs : FileSys) (vault : VaultConfig)
    (dir baseName ext : String) (q : String)
    (hq : fileExists fs vault q = false) :
    ∀ fuel counter, availLoop fs vault dir baseName ext fuel counter q = q := by
  intro fuel counter
  cases fuel with
  | zero => rfl
  | succ f =>
    unfold availLoop
    rw [if_neg (by simp [hq])]

/-- When a free candidate lies within the fuel, the loop returns the first
free candidate at or after the current counter. -/
theorem availLoop_finds (fs : FileSys) (vault : VaultConfig)
    (dir baseName ext : String) :
    ∀ (fuel counter : Nat) (np : String),
      (∃ m, m < fuel ∧
        fileExists fs vault (availCandidate dir baseName ext (counter + m)) = false) →
      fileExists fs vault np = true →
      ∃ k, counter ≤ k ∧
        fileExists fs vault (availCandidate dir baseName ext k) = false ∧
        (∀ j, counter ≤ j → j < k →
          fileExists fs vault (availCandidate dir baseName ext j) = true) ∧
        availLoop fs vault dir baseName ext fuel counter np =
          availCandidate dir baseName ext k := by
  intro fuel
  induction fuel with
  | zero =>
    intro counter np hm _
    obtain ⟨m, hm0, _⟩ := hm
    omega
  | succ f ih =>
    intro counter np hm hnp
    have hstep : availLoop fs vault dir baseName ext (f + 1) counter np =
        availLoop fs vault dir baseName ext f (counter + 1)
          (availCandidate dir baseName ext counter) := by
      rw [availLoop_succ, if_pos hnp]
    by_cases hc : fileExists fs vault (availCandidate dir baseName ext counter) = true
    · obtain ⟨m, hmf, hmfree⟩ := hm
      have hm0 : m ≠ 0 := by
        intro h0
        rw [h0, Nat.add_zero, hc] at hmfree
        cases hmfree
      obtain ⟨k, hk1, hk2, hk3, hk4⟩ := ih (counter + 1)
        (availCandidate dir baseName ext counter)
        ⟨m - 1, by omega,
          by rw [(show counter + 1 + (m - 1) = counter + m by omega)]; exact hmfree⟩ hc
      refine ⟨k, by omega, hk2, ?_, by rw [hstep]; exact hk4⟩
      intro j hj1 hj2
      rcases Nat.eq_or_lt_of_le hj1 with rfl | hj3
      · exact hc
      · exact hk3 j (by omega) hj2
    · have hcf : fileExists fs vault (availCandidate dir baseName ext counter) = false :=
        Bool.eq_false_iff.mpr hc
      refine ⟨counter, Nat.le_refl _, hcf, ?_, ?_⟩
      · intro j hj1 hj2
        omega
      · rw [hstep]
        exact availLoop_stops fs vault dir baseName ext _ hcf f (counter + 1)

/-- C4: `getAvailableFilename` returns a free path unchanged; its result
never collides with an existing path; the result preserves the original file
extension; the function is idempotent; and on a conflict the result is the
first counter-candidate (` 1`, ` 2`, ... inserted before the extension) that
is free - every earlier counter was occupied. -/
theorem getAvailableFilename_spec (fs : FileSys) (vault : VaultConfig)
    (filePath : String) :
    (fileExists fs vault filePath = false →
      getAvailableFilename fs vault filePath = filePath) ∧
    fileExists fs vault (getAvailableFilename fs vault filePath) = false ∧
    extnameS (getAvailableFilename fs vault filePath) = extnameS filePath ∧
    getAvailableFilename fs vault (getAvailableFilename fs vault filePath) =
      getAvailableFilename fs vault filePath ∧
    (fileExists fs vault filePath = true →
      ∃ k, 1 ≤ k ∧
        getAvailableFilename fs vault filePath =
          availCandidate (dirnameS filePath)
            (basenameSuffixS filePath (extnameS filePath)) (extnameS filePath) k ∧
        ∀ j, 1 ≤ j → j < k →
          fileExists fs vault (availCandidate (dirnameS filePath)
            (basenameSuffixS filePath (extnameS filePath))
            (extnameS filePath) j) = true) := by
  by_cases hex : fileExists fs vault filePath = true
  · have hgo : getAvailableFilename fs vault filePath =
        availLoop fs vault (dirnameS filePath)
          (basenameSuffixS filePath (extnameS filePath)) (extnameS filePath)
          (occupiedCount fs + 1) 1 filePath := by
      unfold getAvailableFilename
      rw [hex]
      simp
    obtain ⟨k0, hk01, hk02, hk03⟩ := exists_free_candidate fs vault
      (dirnameS filePath) (basenameSuffixS filePath (extnameS filePath))
      (extnameS filePath) (fun k => midCand_chars filePath k)
    obtain ⟨k, hkge, hkfree, hkfirst, hkval⟩ := availLoop_finds fs vault
      (dirnameS filePath) (basenameSuffixS filePath (extnameS filePath))
      (extnameS filePath) (occupiedCount fs + 1) 1 filePath
      ⟨k0 - 1, by omega,
        by rw [(show 1 + (k0 - 1) = k0 by omega)]; exact hk03⟩ hex
    refine ⟨?_, ?_, ?_, ?_, ?_⟩
    · intro hff
      rw [hex] at hff
      cases hff
    · rw [hgo, hkval]
      exact hkfree
    · rw [hgo, hkval]
      exact extname_candidate filePath k
    · rw [hgo, hkval]
      unfold getAvailableFilename
      simp [hkfree]
    · intro _
      exact ⟨k, hkge, by rw [hgo]; exact hkval, hkfirst⟩
  · have hex2 : fileExists fs vault filePath = false := Bool.eq_false_iff.mpr hex
    have hgo : getAvailableFilename fs vault filePath = filePath := by
      unfold getAvailableFilename
      simp [hex2]
    refine ⟨fun _ => hgo, ?_, ?_, ?_, ?_⟩
    · rw [hgo]
      exact hex2
    · rw [hgo]
    · rw [hgo]
      exact hgo
    · intro hff
      rw [hff] at hex2
      cases hex2

/-- Witness for C4 at a concrete conflicting input: `Inbox/a.md` exists in
the target vault, and the resolved name is the first free candidate
`Inbox/a 1.md`, which does not collide and keeps the `.md` extension. -/
theorem getAvailableFilename_spec_witness :
    (getAvailableFilename fsConflictW targetVaultW "Inbox/a.md" = "Inbox/a 1.md") ∧
    fileExists fsConflictW targetVaultW
      (getAvailableFilename fsConflictW targetVaultW "Inbox/a.md") = false ∧
    extnameS (getAvailableFilename fsConflictW targetVaultW "Inbox/a.md") =
      extnameS "Inbox/a.md" :=
  ⟨by decide,
   (getAvailableFilename_spec fsConflictW targetVaultW "Inbox/a.md").2.1,
   (getAvailableFilename_spec fsConflictW targetVaultW "Inbox/a.md").2.2.1⟩

end Teleporter
